import Mathlib

/-!
# The nginx-style memory pool of `ngx_mem_pool.cpp`

A shallow embedding of the class `ngx_mem_pool` and a verification of its
specification.

Modelling conventions.

* Addresses and `size_t` values are natural numbers below `SIZE_MOD = 2 ^ 64`
  (LP64 target); pointer and `size_t` arithmetic wraps modulo `SIZE_MOD`,
  `ngx_uint_t` arithmetic modulo `UINT_MOD = 2 ^ 32`.  The null pointer is `0`.
* The `sizeof` constants are those of the LP64 ABI (8-byte pointers and
  `unsigned long`, 4-byte `unsigned int`).
* The singly linked lists of the source (`d.next`, `large->next`,
  `cleanup->next`) are Lean lists in link order; every node carries its own
  address.  `pool->current` is the position of the block it points to.
* The underlying allocator is an oracle: every function that may call
  `malloc` takes the value returned by that call as an argument (`0` for a
  failed allocation).  Calls to `malloc`, `free` and to cleanup handlers are
  recorded in a trace.
* The headers of the blocks and the records of the registry are kept as values
  of the model; they are not stored in the bytes of the blocks.
* The cleanup entries are values too, but the model follows the memory they
  occupy: `ngx_reset_pool` and `free` take that memory away from an entry,
  `ngx_pcalloc` clears the bytes of an entry that lie in the range it fills, an
  entry registered at the address of an earlier one overwrites it, and
  `ngx_destroy_pool` walks the chain through memory: it `returns`, `loops` when a
  `next` field leads back to a visited node, and its result is `unknown` when it
  would read a node that is released, overwritten or no longer reserved.
-/

namespace NgxMemPool

/-! ## Machine constants -/

/-- Number of values of `size_t` and `uintptr_t`. -/
def SIZE_MOD : Nat := 18446744073709551616

/-- Number of values of `ngx_uint_t` (`unsigned int`). -/
def UINT_MOD : Nat := 4294967296

/-- The value of `sizeof(ngx_pool_data_t)`: three pointers-sized fields and a padded `unsigned int`. -/
def sizeof_ngx_pool_data_t : Nat := 32

/-- The value of `sizeof(ngx_pool_s)`: the block header followed by `max`, `current`, `large`, `cleanup`. -/
def sizeof_ngx_pool_s : Nat := 64

/-- The value of `sizeof(ngx_pool_large_s)`. -/
def sizeof_ngx_pool_large_s : Nat := 16

/-- The value of `sizeof(ngx_pool_cleanup_s)`. -/
def sizeof_ngx_pool_cleanup_s : Nat := 24

/-- The macro `NGX_ALIGNMENT`, `sizeof(unsigned long)`. -/
def NGX_ALIGNMENT : Nat := 8

/-- The constant `ngx_pagesize`. -/
def ngx_pagesize : Nat := 4096

/-- The constant `NGX_MAX_ALLOC_FROM_POOL = ngx_pagesize - 1`. -/
def NGX_MAX_ALLOC_FROM_POOL : Nat := ngx_pagesize - 1

/-- Pointer plus offset, `p + n` on `u_char *`. -/
def ptr_add (p n : Nat) : Nat := (p + n) % SIZE_MOD

/-- The expression `(size_t) (a - b)` on two pointers (or two `size_t` values). -/
def ptr_diff (a b : Nat) : Nat := (a + SIZE_MOD - b % SIZE_MOD) % SIZE_MOD

/-- The macro `ngx_align_ptr(p, a)`:
`(((uintptr_t) p + ((uintptr_t) a - 1)) & ~((uintptr_t) a - 1))`. -/
def ngx_align_ptr (p a : Nat) : Nat :=
  ((p + (a + SIZE_MOD - 1) % SIZE_MOD) % SIZE_MOD) &&&
    (SIZE_MOD - 1 - (a + SIZE_MOD - 1) % SIZE_MOD)

/-! ## Data model -/

/-- A block of the chain: the header `ngx_pool_data_t` found at address `addr`.
The field `next` of the source is the successor in the list of blocks. -/
structure ngx_pool_data_t where
  addr : Nat
  last : Nat
  end_ : Nat
  failed : Nat
deriving DecidableEq, Repr

/-- A record `ngx_pool_large_s` stored at address `addr`; `alloc = 0` is a cleared record. -/
structure ngx_pool_large_s where
  addr : Nat
  alloc : Nat
deriving DecidableEq, Repr

/-- An entry `ngx_pool_cleanup_s` stored at address `addr`; `handler = 0` is an
unset handler.  The field `next` of the source is the address of the successor
in the list `cleanup` of the pool.  The list keeps every registration, newest
first; the memory cell at an address is the newest entry registered there, so a
later entry at the address of an earlier one overwrites it.  `intact` says that
the node still owns its 24 bytes and that its `next` field holds what
registration stored in it. -/
structure ngx_pool_cleanup_s where
  addr : Nat
  handler : Nat
  data : Nat
  intact : Bool := true
deriving DecidableEq, Repr

/-- The pool `ngx_pool_s`: `blocks` is the chain that starts with the head block
`pool->d`, `current` the position in the chain of the block `pool->current`. -/
structure ngx_pool_s where
  blocks : List ngx_pool_data_t
  max : Nat
  current : Nat
  large : List ngx_pool_large_s
  cleanup : List ngx_pool_cleanup_s
deriving DecidableEq, Repr

/-- Calls that leave the pool: to the allocator and to cleanup handlers. -/
inductive Event where
  | malloc (size result : Nat)
  | free (p : Nat)
  | handler (h data : Nat)
deriving DecidableEq, Repr

/-- An object of class `ngx_mem_pool` after a successful create, with the
trace of the external calls made so far. -/
structure ngx_mem_pool where
  pool : ngx_pool_s
  trace : List Event
deriving DecidableEq, Repr

/-- The call `free(p)`: the C library does nothing for a null pointer. -/
def c_free (p : Nat) (tr : List Event) : List Event :=
  if p = 0 then tr else tr ++ [Event.free p]

/-- Start of the data region of the block at position `i` of the chain: after
the full pool header for the head, after the block header for the others. -/
def data_start (i : Nat) (b : ngx_pool_data_t) : Nat :=
  if i = 0 then ptr_add b.addr sizeof_ngx_pool_s else ptr_add b.addr sizeof_ngx_pool_data_t

/-! ## Operations -/

/-- The method `ngx_create_pool(size)`; `m` is the result of `malloc(size)`.
The result `none` is the return value `false`. -/
def ngx_create_pool (size m : Nat) : Option ngx_mem_pool :=
  if m = 0 then none
  else
    let size1 := ptr_diff size sizeof_ngx_pool_s
    some
      { pool :=
          { blocks := [{ addr := m, last := ptr_add m sizeof_ngx_pool_s,
                         end_ := ptr_add m size, failed := 0 }]
            max := if size1 < NGX_MAX_ALLOC_FROM_POOL then size1 else NGX_MAX_ALLOC_FROM_POOL
            current := 0
            large := []
            cleanup := [] }
        trace := [Event.malloc size m] }

/-- The loop of `ngx_palloc_block` over the blocks from `pool->current` to the
tail: `i` is the position of the first block of the list, `cur` the running
value of `pool->current`.  The body runs for every block that has a successor. -/
def ngx_palloc_block_walk : Nat → Nat → List ngx_pool_data_t → Nat × List ngx_pool_data_t
  | _, cur, [] => (cur, [])
  | _, cur, [p] => (cur, [p])
  | i, cur, p :: q :: rest =>
    let r := ngx_palloc_block_walk (i + 1) (if 4 < p.failed then i + 1 else cur) (q :: rest)
    (r.1, { p with failed := (p.failed + 1) % UINT_MOD } :: r.2)

/-- The method `ngx_palloc_block(size)`; `mb` is the result of `malloc(psize)`. -/
def ngx_palloc_block (w : ngx_mem_pool) (size mb : Nat) : Nat × ngx_mem_pool :=
  let psize := match w.pool.blocks with
    | [] => 0
    | h :: _ => ptr_diff h.end_ h.addr
  let tr := w.trace ++ [Event.malloc psize mb]
  if mb = 0 then (0, { w with trace := tr })
  else
    let m := ngx_align_ptr (ptr_add mb sizeof_ngx_pool_data_t) NGX_ALIGNMENT
    let new_pool : ngx_pool_data_t :=
      { addr := mb, last := ptr_add m size, end_ := ptr_add mb size, failed := 0 }
    let r := ngx_palloc_block_walk w.pool.current w.pool.current
      (w.pool.blocks.drop w.pool.current)
    (m, { pool := { w.pool with
                    blocks := w.pool.blocks.take w.pool.current ++ (r.2 ++ [new_pool])
                    current := r.1 }
          trace := tr })

/-- The loop of `ngx_palloc_small` over the blocks from `pool->current` on.
On a fit the result is the address `m`, the position (in the list) of the block
that served the request, and the list with that block's `last` advanced. -/
def ngx_palloc_small_scan (size align : Nat) :
    List ngx_pool_data_t → Option (Nat × Nat × List ngx_pool_data_t)
  | [] => none
  | p :: rest =>
    let m := if align ≠ 0 then ngx_align_ptr p.last NGX_ALIGNMENT else p.last
    if size ≤ ptr_diff p.end_ m then
      some (m, 0, { p with last := ptr_add m size } :: rest)
    else
      match ngx_palloc_small_scan size align rest with
      | none => none
      | some (r, i, rest1) => some (r, i + 1, p :: rest1)

/-- The method `ngx_palloc_small(size, align)`; `mb` is the result of the
`malloc` of `ngx_palloc_block`, used when no block fits. -/
def ngx_palloc_small (w : ngx_mem_pool) (size align mb : Nat) : Nat × ngx_mem_pool :=
  match ngx_palloc_small_scan size align (w.pool.blocks.drop w.pool.current) with
  | some (m, _, rest) =>
    (m, { w with pool := { w.pool with
                           blocks := w.pool.blocks.take w.pool.current ++ rest } })
  | none => ngx_palloc_block w size mb

/-- Position in the chain of the block that serves `ngx_palloc_small(size, align)`
in state `w`, or `none` when the request needs a new block. -/
def served_by (w : ngx_mem_pool) (size align : Nat) : Option Nat :=
  match ngx_palloc_small_scan size align (w.pool.blocks.drop w.pool.current) with
  | some (_, i, _) => some (w.pool.current + i)
  | none => none

/-- Position in the chain of the block from which `ngx_palloc_small(size, align)`
takes its result in state `w`: the existing block that serves the request, or
the block appended by block growth when `malloc` returns `mb`; `none` when the
call returns null. -/
def source_block (w : ngx_mem_pool) (size align mb : Nat) : Option Nat :=
  match served_by w size align with
  | some i => some i
  | none => if mb = 0 then none else some w.pool.blocks.length

/-- The loop of `ngx_palloc_large` that looks for a cleared record; `n` is the
counter of the source.  The result is the registry with `p` stored, or `none`
when the loop ends or breaks without a cleared record. -/
def ngx_palloc_large_scan (p : Nat) : Nat → List ngx_pool_large_s → Option (List ngx_pool_large_s)
  | _, [] => none
  | n, large :: rest =>
    if large.alloc = 0 then some ({ large with alloc := p } :: rest)
    else if 3 < n then none
    else
      match ngx_palloc_large_scan p (n + 1) rest with
      | none => none
      | some rest1 => some (large :: rest1)

/-- The method `ngx_palloc_large(size)`; `ml` is the result of `malloc(size)`,
`mb` the result of the `malloc` of `ngx_palloc_block` if the new record needs a block. -/
def ngx_palloc_large (w : ngx_mem_pool) (size ml mb : Nat) : Nat × ngx_mem_pool :=
  let w1 : ngx_mem_pool := { w with trace := w.trace ++ [Event.malloc size ml] }
  if ml = 0 then (0, w1)
  else
    match ngx_palloc_large_scan ml 0 w1.pool.large with
    | some large1 => (ml, { w1 with pool := { w1.pool with large := large1 } })
    | none =>
      let r := ngx_palloc_small w1 sizeof_ngx_pool_large_s 1 mb
      if r.1 = 0 then (0, { r.2 with trace := c_free ml r.2.trace })
      else
        (ml, { r.2 with pool := { r.2.pool with
                                  large := { addr := r.1, alloc := ml } :: r.2.pool.large } })

/-- The method `ngx_palloc(size)`. -/
def ngx_palloc (w : ngx_mem_pool) (size ml mb : Nat) : Nat × ngx_mem_pool :=
  if size < w.pool.max then ngx_palloc_small w size 1 mb
  else ngx_palloc_large w size ml mb

/-- The method `ngx_pnalloc(size)`. -/
def ngx_pnalloc (w : ngx_mem_pool) (size ml mb : Nat) : Nat × ngx_mem_pool :=
  if size < w.pool.max then ngx_palloc_small w size 0 mb
  else ngx_palloc_large w size ml mb

/-- The macro `ngx_memzero(buf, n)` on a byte memory. -/
def ngx_memzero (mem : Nat → Nat) (buf n : Nat) : Nat → Nat :=
  fun a => if buf ≤ a ∧ a < buf + n then 0 else mem a

/-- The byte ranges `[a, a + la)` and `[b, b + lb)` intersect. -/
def overlaps (a la b lb : Nat) : Bool :=
  decide (a < b + lb) && decide (b < a + la)

/-- The 8-byte little-endian word `v` stored at address `f`, after the bytes at
the addresses `lo <= x < hi` have been set to zero. -/
def zero_word (v f lo hi : Nat) : Nat :=
  (List.range 8).foldl
    (fun acc i => if lo ≤ f + i ∧ f + i < hi then acc else acc + v / 256 ^ i % 256 * 256 ^ i) 0

/-- Effect of `ngx_memzero(buf, n)` on a cleanup entry: the bytes of its
`handler` (at `addr`) and `data` (at `addr + 8`) that lie in the range are
cleared; if a byte of its `next` field (at `addr + 16`) lies in the range the
node is no longer intact.  An entry that shares no byte with the range is left
as it is. -/
def ngx_memzero_entry (buf n : Nat) (c : ngx_pool_cleanup_s) : ngx_pool_cleanup_s :=
  if 0 < n ∧ overlaps buf n c.addr sizeof_ngx_pool_cleanup_s = true then
    { addr := c.addr
      handler := zero_word c.handler c.addr buf (buf + n)
      data := zero_word c.data (c.addr + 8) buf (buf + n)
      intact := c.intact && !overlaps buf n (c.addr + 16) 8 }
  else c

/-- The method `ngx_pcalloc(size)` on the pool and a byte memory `mem`.  The
zero fill acts on the bytes of `mem` and on the cleanup entries stored in the
returned range. -/
def ngx_pcalloc (w : ngx_mem_pool) (size ml mb : Nat) (mem : Nat → Nat) :
    Nat × ngx_mem_pool × (Nat → Nat) :=
  let r := ngx_palloc w size ml mb
  if r.1 ≠ 0 then
    (r.1,
      { r.2 with pool := { r.2.pool with
          cleanup := r.2.pool.cleanup.map (ngx_memzero_entry r.1 size) } },
      ngx_memzero mem r.1 size)
  else (r.1, r.2, mem)

/-- The loop of `ngx_pfree`: the registry with the first record that holds `p`
cleared, or `none` when no record matches. -/
def ngx_pfree_scan (p : Nat) : List ngx_pool_large_s → Option (List ngx_pool_large_s)
  | [] => none
  | l :: rest =>
    if p = l.alloc then some ({ l with alloc := 0 } :: rest)
    else
      match ngx_pfree_scan p rest with
      | none => none
      | some rest1 => some (l :: rest1)

/-- The method `ngx_pfree(p)`. -/
def ngx_pfree (w : ngx_mem_pool) (p : Nat) : ngx_mem_pool :=
  match ngx_pfree_scan p w.pool.large with
  | none => w
  | some large1 =>
    { pool := { w.pool with large := large1 }, trace := c_free p w.trace }

/-- The first loop of `ngx_reset_pool` (and the second of `ngx_destroy_pool`):
`free` on the region of every record that is not cleared. -/
def free_large (tr : List Event) : List ngx_pool_large_s → List Event
  | [] => tr
  | l :: rest => free_large (if l.alloc ≠ 0 then c_free l.alloc tr else tr) rest

/-- The method `ngx_reset_pool()`.  The pointer `pool->cleanup` and the stored
handlers and data are left as they are, but no entry owns its memory afterwards:
entries in block memory lie in the rewound area, entries in a large region have
been released with it. -/
def ngx_reset_pool (w : ngx_mem_pool) : ngx_mem_pool :=
  { pool := { w.pool with
              blocks := match w.pool.blocks with
                | [] => []
                | h :: rest =>
                  { h with last := ptr_add h.addr sizeof_ngx_pool_s, failed := 0 } ::
                    rest.map (fun p =>
                      { p with last := ptr_add p.addr sizeof_ngx_pool_data_t, failed := 0 })
              current := 0
              large := []
              cleanup := w.pool.cleanup.map (fun c => { c with intact := false }) }
    trace := free_large w.trace w.pool.large }

/-- The last loop of `ngx_destroy_pool`: `free` on every block of the chain. -/
def free_blocks (tr : List Event) : List ngx_pool_data_t → List Event
  | [] => tr
  | p :: rest => free_blocks (c_free p.addr tr) rest

/-- The method `ngx_pool_cleanup_add(size)`; `ml1 mb1` are the allocator results
for the `ngx_palloc` of the entry, `ml2 mb2` those for the `ngx_palloc` of the payload. -/
def ngx_pool_cleanup_add (w : ngx_mem_pool) (size ml1 mb1 ml2 mb2 : Nat) : Nat × ngx_mem_pool :=
  let c := ngx_palloc w sizeof_ngx_pool_cleanup_s ml1 mb1
  if c.1 = 0 then (0, c.2)
  else if size ≠ 0 then
    let d := ngx_palloc c.2 size ml2 mb2
    if d.1 = 0 then (0, d.2)
    else
      (c.1, { d.2 with pool := { d.2.pool with
                cleanup := { addr := c.1, handler := 0, data := d.1 } :: d.2.pool.cleanup } })
  else
    (c.1, { c.2 with pool := { c.2.pool with
              cleanup := { addr := c.1, handler := 0, data := 0 } :: c.2.pool.cleanup } })

/-! ## Sequences of public operations -/

/-- A call of a public method other than create and destroy, with the results
of the allocator calls it may make; `set_handler` and `set_data` are the
caller's assignments to the fields of the entry at address `c`. -/
inductive Op where
  | palloc (size ml mb : Nat)
  | pnalloc (size ml mb : Nat)
  | pcalloc (size ml mb : Nat)
  | pfree (p : Nat)
  | reset
  | cleanup_add (size ml1 mb1 ml2 mb2 : Nat)
  | set_handler (c h : Nat)
  | set_data (c d : Nat)
deriving DecidableEq, Repr

/-- Effect of one operation on the pool. -/
def step (w : ngx_mem_pool) : Op → ngx_mem_pool
  | Op.palloc size ml mb => (ngx_palloc w size ml mb).2
  | Op.pnalloc size ml mb => (ngx_pnalloc w size ml mb).2
  | Op.pcalloc size ml mb => (ngx_pcalloc w size ml mb (fun _ => 0)).2.1
  | Op.pfree p => ngx_pfree w p
  | Op.reset => ngx_reset_pool w
  | Op.cleanup_add size ml1 mb1 ml2 mb2 => (ngx_pool_cleanup_add w size ml1 mb1 ml2 mb2).2
  | Op.set_handler c h =>
    { w with pool := { w.pool with
        cleanup := w.pool.cleanup.map (fun e => if e.addr = c then { e with handler := h } else e) } }
  | Op.set_data c d =>
    { w with pool := { w.pool with
        cleanup := w.pool.cleanup.map (fun e => if e.addr = c then { e with data := d } else e) } }

/-- Effect of a sequence of operations, first to last. -/
def run (w : ngx_mem_pool) : List Op → ngx_mem_pool
  | [] => w
  | o :: os => run (step w o) os

/-- The address `p` lies in the data region of block `b`, the block at position
`i` of the chain: `dataStart(b) <= p < b.end`. -/
def in_block (p i : Nat) (b : ngx_pool_data_t) : Prop :=
  data_start i b ≤ p ∧ p < b.end_

instance (p i : Nat) (b : ngx_pool_data_t) : Decidable (in_block p i b) := by
  unfold in_block
  infer_instance

/-- The regions obtained from the allocator in a trace: the results of the
`malloc` calls that did not fail, in call order. -/
def obtained : List Event → List Nat
  | [] => []
  | Event.malloc _ result :: rest => if result = 0 then obtained rest else result :: obtained rest
  | _ :: rest => obtained rest

/-- The regions handed back to the allocator in a trace, in call order. -/
def released : List Event → List Nat
  | [] => []
  | Event.free p :: rest => p :: released rest
  | _ :: rest => released rest

/-- The block `T` is a grown block that has not been rewound: its cursor stands
past its `d.end`, by at least the 32 bytes of the block header and by at most
`t` bytes. -/
def overrun (T : ngx_pool_data_t) (t : Nat) : Prop :=
  32 ≤ ptr_diff T.last T.end_ ∧ ptr_diff T.last T.end_ ≤ t

/-- The pool has `current` at the head and `max` at most 4095, and either no
block has failed, or no block has failed more than once and the tail of the
chain is a grown block whose cursor is at most `t` bytes past its `d.end`. -/
def Calm (w : ngx_mem_pool) (t : Nat) : Prop :=
  w.pool.current = 0 ∧ w.pool.max ≤ NGX_MAX_ALLOC_FROM_POOL ∧
  ((∀ b ∈ w.pool.blocks, b.failed = 0) ∨
    ((∀ b ∈ w.pool.blocks, b.failed ≤ 1) ∧
      ∃ front T, w.pool.blocks = front ++ [T] ∧ overrun T t))

/-- What a call of `ngx_destroy_pool()` does: it returns with a trace, it never
leaves its first loop, or it reads a node whose contents the model does not
determine. -/
inductive Outcome where
  | returns (tr : List Event)
  | loops
  | unknown
deriving DecidableEq, Repr

/-- The address `c` is a region that the trace obtained from the allocator and
has released at least as often. -/
def region_freed (tr : List Event) (c : Nat) : Bool :=
  decide (0 < (obtained tr).count c) && decide ((obtained tr).count c ≤ (released tr).count c)

/-- The node `c`, reached by `ngx_destroy_pool` after the nodes at the addresses
`visited`, can be read: it is intact, its memory has not been released, and it
shares no byte with a visited node or with the header of a block. -/
def node_readable (w : ngx_mem_pool) (visited : List Nat) (c : ngx_pool_cleanup_s) : Bool :=
  c.intact && !region_freed w.trace c.addr &&
    visited.all (fun v => !overlaps v sizeof_ngx_pool_cleanup_s c.addr sizeof_ngx_pool_cleanup_s) &&
    w.pool.blocks.enum.all (fun ib =>
      !overlaps ib.2.addr (if ib.1 = 0 then sizeof_ngx_pool_s else sizeof_ngx_pool_data_t)
        c.addr sizeof_ngx_pool_cleanup_s)

/-- The first loop of `ngx_destroy_pool` on the memory of the pool.  The `next`
field of a node holds the address of the following entry of the list; when that
address is the address of a node already visited the loop goes round for ever. -/
def run_cleanup_mem (w : ngx_mem_pool) :
    List Nat → List Event → List ngx_pool_cleanup_s → Outcome
  | _, tr, [] => Outcome.returns tr
  | visited, tr, c :: rest =>
    if c.addr ∈ visited then Outcome.loops
    else if node_readable w visited c then
      run_cleanup_mem w (c.addr :: visited)
        (if c.handler ≠ 0 then tr ++ [Event.handler c.handler c.data] else tr) rest
    else Outcome.unknown

/-- The method `ngx_destroy_pool()`. -/
def ngx_destroy_pool (w : ngx_mem_pool) : Outcome :=
  match run_cleanup_mem w [] w.trace w.pool.cleanup with
  | Outcome.returns tr => Outcome.returns (free_blocks (free_large tr w.pool.large) w.pool.blocks)
  | o => o

/-- The pool made by `ngx_create_pool(512)` when `malloc` returns address 4096. -/
def pool512 : ngx_mem_pool :=
  { pool := { blocks := [{ addr := 4096, last := 4160, end_ := 4608, failed := 0 }]
              max := 448, current := 0, large := [], cleanup := [] }
    trace := [Event.malloc 512 4096] }

/-- The pool of `create(512)` after six large allocations of 1000 bytes, for
which the allocator returned 20000, 30000, ..., 70000: the registry holds six
live records, the newest first. -/
def pool512_six : ngx_mem_pool :=
  run pool512
    [Op.palloc 1000 20000 0, Op.palloc 1000 30000 0, Op.palloc 1000 40000 0,
     Op.palloc 1000 50000 0, Op.palloc 1000 60000 0, Op.palloc 1000 70000 0]

/-- The pool of `create(512)` after `ngx_palloc(440)`, which leaves 8 bytes in
the head block, and `ngx_palloc(16)`, which grows the chain by a block that the
allocator placed at 8192. -/
def pool512_grown : ngx_mem_pool :=
  run pool512 [Op.palloc 440 0 0, Op.palloc 16 0 8192]

/-- The pool made by `ngx_create_pool(100)` when `malloc` returns address 4096:
the limit 4196 of its head block is not a multiple of the alignment unit. -/
def pool100 : ngx_mem_pool :=
  { pool := { blocks := [{ addr := 4096, last := 4160, end_ := 4196, failed := 0 }]
              max := 36, current := 0, large := [], cleanup := [] }
    trace := [Event.malloc 100 4096] }

/-- The pool of `create(512)` after four large allocations of 1000 bytes at
20000, 30000, 40000, 50000 and `ngx_pfree(20000)`: the first three records of the
registry are live, the fourth is cleared. -/
def pool512_four : ngx_mem_pool :=
  run pool512
    [Op.palloc 1000 20000 0, Op.palloc 1000 30000 0, Op.palloc 1000 40000 0,
     Op.palloc 1000 50000 0, Op.pfree 20000]

/-- A pool of two full blocks whose head block has failed four times: the head
of `create(512)` with 8 bytes left, and a second block at 8192 with no room. -/
def pool_failed4 : ngx_mem_pool :=
  { pool := { blocks := [{ addr := 4096, last := 4600, end_ := 4608, failed := 4 },
                         { addr := 8192, last := 8592, end_ := 8592, failed := 0 }]
              max := 448, current := 0, large := [], cleanup := [] }
    trace := [Event.malloc 512 4096, Event.malloc 512 8192] }

/-- The pool made by `ngx_create_pool(80)` when `malloc` returns address 4096:
its threshold 16 is below `sizeof(ngx_pool_cleanup_s)`. -/
def pool80 : ngx_mem_pool :=
  { pool := { blocks := [{ addr := 4096, last := 4160, end_ := 4176, failed := 0 }]
              max := 16, current := 0, large := [], cleanup := [] }
    trace := [Event.malloc 80 4096] }

theorem land_align_mask (x : Nat) (hx : x < 18446744073709551616) :
    x &&& 18446744073709551608 = x / 8 * 8 := by
  apply Nat.eq_of_testBit_eq
  intro i
  have e1 : (18446744073709551608 : Nat) = 2 ^ 64 - (7 + 1) := by norm_num
  have e2 : x / 8 * 8 = (x >>> 3) <<< 3 := by
    rw [Nat.shiftRight_eq_div_pow, Nat.shiftLeft_eq]
  have e3 : (7 : Nat) = 2 ^ 3 - 1 := by norm_num
  rw [Nat.testBit_and, e1, Nat.testBit_two_pow_sub_succ (by norm_num), e2, Nat.testBit_shiftLeft,
    Nat.testBit_shiftRight, e3, Nat.testBit_two_pow_sub_one]
  by_cases h3 : i < 3
  · simp [h3]
  · have h4 : 3 + (i - 3) = i := by omega
    have h5 : 3 ≤ i := by omega
    by_cases h64 : i < 64
    · simp [h3, h4, h5, h64]
    · have h6 : x.testBit i = false := by
        apply Nat.testBit_lt_two_pow
        calc x < 2 ^ 64 := by norm_num; exact hx
          _ ≤ 2 ^ i := Nat.pow_le_pow_right (by norm_num) (by omega)
      simp [h3, h4, h5, h64, h6]

/-- The macro `ngx_align_ptr` with the unit `NGX_ALIGNMENT` rounds `p + 7`
(taken modulo `SIZE_MOD`) down to a multiple of 8. -/
theorem ngx_align_ptr_eq (p : Nat) :
    ngx_align_ptr p NGX_ALIGNMENT = (p + 7) % SIZE_MOD / 8 * 8 := by
  have hlt : (p + 7) % 18446744073709551616 < 18446744073709551616 :=
    Nat.mod_lt _ (by norm_num)
  have h := land_align_mask _ hlt
  simpa [ngx_align_ptr, NGX_ALIGNMENT, SIZE_MOD] using h

theorem ngx_align_ptr_mod (p : Nat) : ngx_align_ptr p NGX_ALIGNMENT % NGX_ALIGNMENT = 0 := by
  rw [ngx_align_ptr_eq]
  simp [NGX_ALIGNMENT]

theorem ngx_align_ptr_lt (p : Nat) : ngx_align_ptr p NGX_ALIGNMENT < SIZE_MOD := by
  rw [ngx_align_ptr_eq]
  have h : (p + 7) % SIZE_MOD < SIZE_MOD := Nat.mod_lt _ (by simp [SIZE_MOD])
  have h2 := Nat.div_mul_le_self ((p + 7) % SIZE_MOD) 8
  omega

theorem ngx_align_ptr_ge (p : Nat) (h : p + 8 ≤ SIZE_MOD) :
    p ≤ ngx_align_ptr p NGX_ALIGNMENT := by
  rw [ngx_align_ptr_eq]
  simp only [SIZE_MOD] at h ⊢
  omega

/-- C1 (as stated, refuted): for the byte budget `S = 10`, smaller than the pool
header, `ngx_create_pool` succeeds and sets `max` to 4095, not to the minimum of
the integer difference `10 - 64 = -54` and 4095. -/
theorem C1_counterexample :
    (ngx_create_pool 10 4096).map (fun w => (w.pool.max : Int)) = some 4095 ∧
    (ngx_create_pool 10 4096).map (fun w => (w.pool.max : Int)) ≠
      some (min ((10 : Int) - (sizeof_ngx_pool_s : Int)) (NGX_MAX_ALLOC_FROM_POOL : Int)) := by
  decide

/-- C1 (amended): whenever the underlying allocation succeeds, `ngx_create_pool(S)`
returns true and sets `max` to the minimum of 4095 and `S - sizeof(ngx_pool_s)`
computed in `size_t` arithmetic; this is `min(S - sizeof(ngx_pool_s), 4095)` for
every `S` that is at least the header size, and 4095 for every smaller `S`. -/
theorem C1_create_threshold (S m : Nat) (hS : S < SIZE_MOD) (hm : m ≠ 0) :
    ∃ w, ngx_create_pool S m = some w ∧
      w.pool.max = min (ptr_diff S sizeof_ngx_pool_s) NGX_MAX_ALLOC_FROM_POOL ∧
      (sizeof_ngx_pool_s ≤ S →
        w.pool.max = min (S - sizeof_ngx_pool_s) NGX_MAX_ALLOC_FROM_POOL) ∧
      (S < sizeof_ngx_pool_s → w.pool.max = NGX_MAX_ALLOC_FROM_POOL) := by
  simp only [ngx_create_pool, if_neg hm]
  refine ⟨_, rfl, ?_, ?_, ?_⟩
  · simp only [ptr_diff, SIZE_MOD, sizeof_ngx_pool_s, NGX_MAX_ALLOC_FROM_POOL, ngx_pagesize]
    split <;> omega
  · intro h
    simp only [ptr_diff, SIZE_MOD, sizeof_ngx_pool_s, NGX_MAX_ALLOC_FROM_POOL, ngx_pagesize] at *
    split <;> omega
  · intro h
    simp only [ptr_diff, SIZE_MOD, sizeof_ngx_pool_s, NGX_MAX_ALLOC_FROM_POOL, ngx_pagesize] at *
    split <;> omega

/-- Witness of C1 at the budget of the demonstration program, `create(512)`. -/
theorem C1_create_threshold_witness :
    ∃ w, ngx_create_pool 512 4096 = some w ∧
      w.pool.max = min (ptr_diff 512 sizeof_ngx_pool_s) NGX_MAX_ALLOC_FROM_POOL ∧
      (sizeof_ngx_pool_s ≤ 512 →
        w.pool.max = min (512 - sizeof_ngx_pool_s) NGX_MAX_ALLOC_FROM_POOL) ∧
      (512 < sizeof_ngx_pool_s → w.pool.max = NGX_MAX_ALLOC_FROM_POOL) :=
  C1_create_threshold 512 4096 (by decide) (by decide)

/-! ## C2: a small allocation lies in exactly one block -/

/-- C2 (the code at the failing input): after `create(512)` and `ngx_palloc(440)`,
the small request `ngx_palloc(16)` triggers block growth; the new block gets
`d.end = block start + 16`, the returned pointer is `block start + 32`, and no
block of the chain contains the returned pointer between its data start and its
`d.end`. -/
theorem C2_growth_pointer_in_no_block :
    ngx_create_pool 512 4096 = some pool512 ∧
    16 < (ngx_palloc pool512 440 0 0).2.pool.max ∧
    (ngx_palloc (ngx_palloc pool512 440 0 0).2 16 0 8192).1 = 8224 ∧
    (ngx_palloc (ngx_palloc pool512 440 0 0).2 16 0 8192).2.pool.blocks =
      [{ addr := 4096, last := 4600, end_ := 4608, failed := 0 },
       { addr := 8192, last := 8240, end_ := 8208, failed := 0 }] ∧
    ∀ ib ∈ (ngx_palloc (ngx_palloc pool512 440 0 0).2 16 0 8192).2.pool.blocks.enum,
      ¬ in_block (ngx_palloc (ngx_palloc pool512 440 0 0).2 16 0 8192).1 ib.1 ib.2 := by
  decide

/-! ## C3: aligned allocations -/

theorem ngx_palloc_small_scan_aligned (size align : Nat) (halign : align ≠ 0) :
    ∀ (bs : List ngx_pool_data_t) (m i : Nat) (bs1 : List ngx_pool_data_t),
      ngx_palloc_small_scan size align bs = some (m, i, bs1) → m % NGX_ALIGNMENT = 0 := by
  intro bs
  induction bs with
  | nil => intro m i bs1 h; simp [ngx_palloc_small_scan] at h
  | cons b rest ih =>
    intro m i bs1 h
    simp only [ngx_palloc_small_scan, if_pos halign] at h
    split at h
    · simp only [Option.some.injEq, Prod.mk.injEq] at h
      rw [← h.1]
      exact ngx_align_ptr_mod _
    · split at h
      · simp at h
      · rename_i r j rest1 heq
        simp only [Option.some.injEq, Prod.mk.injEq] at h
        rw [← h.1]
        exact ih r j rest1 heq

theorem ngx_palloc_block_aligned (w : ngx_mem_pool) (size mb : Nat) :
    (ngx_palloc_block w size mb).1 % NGX_ALIGNMENT = 0 := by
  unfold ngx_palloc_block
  by_cases h : mb = 0
  · simp [h]
  · simp only [if_neg h]
    exact ngx_align_ptr_mod _

theorem ngx_palloc_small_aligned (w : ngx_mem_pool) (size align mb : Nat) (halign : align ≠ 0) :
    (ngx_palloc_small w size align mb).1 % NGX_ALIGNMENT = 0 := by
  unfold ngx_palloc_small
  split
  · rename_i m i rest heq
    exact ngx_palloc_small_scan_aligned size align halign _ m i rest heq
  · exact ngx_palloc_block_aligned w size mb

theorem ngx_palloc_large_result (w : ngx_mem_pool) (size ml mb : Nat) :
    (ngx_palloc_large w size ml mb).1 = ml ∨ (ngx_palloc_large w size ml mb).1 = 0 := by
  unfold ngx_palloc_large
  by_cases h : ml = 0
  · simp [h]
  · simp only [if_neg h]
    split
    · exact Or.inl rfl
    · split
      · exact Or.inr rfl
      · exact Or.inl rfl

/-- C3: if the allocator returns a multiple of `NGX_ALIGNMENT` for the large
region, then in every pool state and for every size the result of `ngx_palloc`
and of `ngx_pcalloc` is a multiple of `NGX_ALIGNMENT`, whether it comes from an
existing block, from a newly grown block (for any block address) or from the
large path. -/
theorem C3_palloc_aligned (w : ngx_mem_pool) (size ml mb : Nat) (mem : Nat → Nat)
    (hml : ml % NGX_ALIGNMENT = 0) :
    (ngx_palloc w size ml mb).1 % NGX_ALIGNMENT = 0 ∧
    (ngx_pcalloc w size ml mb mem).1 % NGX_ALIGNMENT = 0 := by
  have key : (ngx_palloc w size ml mb).1 % NGX_ALIGNMENT = 0 := by
    unfold ngx_palloc
    split
    · exact ngx_palloc_small_aligned w size 1 mb (by decide)
    · rcases ngx_palloc_large_result w size ml mb with h | h
      · rw [h]; exact hml
      · rw [h]; rfl
  refine ⟨key, ?_⟩
  unfold ngx_pcalloc
  simp only []
  split <;> exact key

/-- Witness of C3: on the pool of `create(512)` with the cursor moved to the odd
address 4161 by an unaligned allocation, `ngx_palloc(16)` returns 4168. -/
theorem C3_palloc_aligned_witness :
    (0 : Nat) % NGX_ALIGNMENT = 0 ∧
    (ngx_palloc (ngx_pnalloc pool512 1 0 0).2 16 0 0).1 = 4168 ∧
    (ngx_palloc (ngx_pnalloc pool512 1 0 0).2 16 0 0).1 % NGX_ALIGNMENT = 0 ∧
    (ngx_pcalloc (ngx_pnalloc pool512 1 0 0).2 16 0 0 (fun _ => 1)).1 % NGX_ALIGNMENT = 0 :=
  ⟨by decide, by decide,
    (C3_palloc_aligned (ngx_pnalloc pool512 1 0 0).2 16 0 0 (fun _ => 1) (by decide)).1,
    (C3_palloc_aligned (ngx_pnalloc pool512 1 0 0).2 16 0 0 (fun _ => 1) (by decide)).2⟩

theorem ngx_palloc_small_scan_cons (size align : Nat) (p : ngx_pool_data_t)
    (rest : List ngx_pool_data_t) :
    ngx_palloc_small_scan size align (p :: rest) =
      if size ≤ ptr_diff p.end_ (if align ≠ 0 then ngx_align_ptr p.last NGX_ALIGNMENT else p.last) then
        some (if align ≠ 0 then ngx_align_ptr p.last NGX_ALIGNMENT else p.last, 0,
          { p with last := ptr_add (if align ≠ 0 then ngx_align_ptr p.last NGX_ALIGNMENT else p.last) size } :: rest)
      else
        match ngx_palloc_small_scan size align rest with
        | none => none
        | some (r, i, rest1) => some (r, i + 1, p :: rest1) := rfl

theorem ngx_palloc_small_scan_some (size align : Nat) :
    ∀ (bs : List ngx_pool_data_t) (m j : Nat) (bs1 : List ngx_pool_data_t),
      ngx_palloc_small_scan size align bs = some (m, j, bs1) →
      ∃ b, bs[j]? = some b ∧
        m = (if align ≠ 0 then ngx_align_ptr b.last NGX_ALIGNMENT else b.last) ∧
        size ≤ ptr_diff b.end_ m ∧
        bs1 = bs.set j { b with last := ptr_add m size } := by
  intro bs
  induction bs with
  | nil => intro m j bs1 h; simp [ngx_palloc_small_scan] at h
  | cons b rest ih =>
    intro m j bs1 h
    rw [ngx_palloc_small_scan_cons] at h
    by_cases hfit : size ≤ ptr_diff b.end_
        (if align ≠ 0 then ngx_align_ptr b.last NGX_ALIGNMENT else b.last)
    · rw [if_pos hfit] at h
      simp only [Option.some.injEq, Prod.mk.injEq] at h
      obtain ⟨h1, h2, h3⟩ := h
      subst h1 h2 h3
      exact ⟨b, by simp, rfl, hfit, by simp⟩
    · rw [if_neg hfit] at h
      cases hrec : ngx_palloc_small_scan size align rest with
      | none => rw [hrec] at h; simp at h
      | some t =>
        obtain ⟨r, i, rest1⟩ := t
        rw [hrec] at h
        simp only [Option.some.injEq, Prod.mk.injEq] at h
        obtain ⟨h1, h2, h3⟩ := h
        subst h1 h2 h3
        obtain ⟨b1, hb1, hm, hfit1, hset⟩ := ih r i rest1 hrec
        exact ⟨b1, by simpa using hb1, hm, hfit1, by simp [hset]⟩

theorem served_by_some (w : ngx_mem_pool) (size align mb i : Nat)
    (h : served_by w size align = some i) :
    ∃ b, w.pool.blocks[i]? = some b ∧ w.pool.current ≤ i ∧
      (ngx_palloc_small w size align mb).1 =
        (if align ≠ 0 then ngx_align_ptr b.last NGX_ALIGNMENT else b.last) ∧
      size ≤ ptr_diff b.end_ (ngx_palloc_small w size align mb).1 ∧
      (ngx_palloc_small w size align mb).2 =
        { w with pool := { w.pool with
            blocks := w.pool.blocks.set i
              { b with last := ptr_add (ngx_palloc_small w size align mb).1 size } } } := by
  cases hscan : ngx_palloc_small_scan size align (w.pool.blocks.drop w.pool.current) with
  | none => simp [served_by, hscan] at h
  | some t =>
    obtain ⟨m, j, rest⟩ := t
    simp only [served_by, hscan, Option.some.injEq] at h
    simp only [ngx_palloc_small, hscan]
    obtain ⟨b, hb, hm, hfit, hset⟩ := ngx_palloc_small_scan_some size align _ m j rest hscan
    refine ⟨b, ?_, by omega, hm, hfit, ?_⟩
    · rw [← h]; simpa using hb
    · congr 2
      rw [hset, ← h]
      have hj : j < (w.pool.blocks.drop w.pool.current).length := by
        rcases Nat.lt_or_ge j (w.pool.blocks.drop w.pool.current).length with hlt | hge
        · exact hlt
        · rw [List.getElem?_eq_none hge] at hb; simp at hb
      have hcur : w.pool.current ≤ w.pool.blocks.length := by
        simp at hj; omega
      conv_rhs => rw [← List.take_append_drop w.pool.current w.pool.blocks]
      rw [List.set_append_right]
      · simp [Nat.min_eq_left hcur]
      · simp [Nat.min_eq_left hcur]

/-! ## Frame properties of the small path -/

theorem ngx_palloc_block_frame (w : ngx_mem_pool) (size mb : Nat) :
    (ngx_palloc_block w size mb).2.pool.large = w.pool.large ∧
    (ngx_palloc_block w size mb).2.pool.max = w.pool.max ∧
    (ngx_palloc_block w size mb).2.pool.cleanup = w.pool.cleanup := by
  unfold ngx_palloc_block
  by_cases h : mb = 0
  · simp [h]
  · simp [h]

theorem ngx_palloc_small_frame (w : ngx_mem_pool) (size align mb : Nat) :
    (ngx_palloc_small w size align mb).2.pool.large = w.pool.large ∧
    (ngx_palloc_small w size align mb).2.pool.max = w.pool.max ∧
    (ngx_palloc_small w size align mb).2.pool.cleanup = w.pool.cleanup := by
  cases hscan : ngx_palloc_small_scan size align (w.pool.blocks.drop w.pool.current) with
  | none =>
    simp only [ngx_palloc_small, hscan]
    exact ngx_palloc_block_frame w size mb
  | some t =>
    obtain ⟨m, j, rest⟩ := t
    simp [ngx_palloc_small, hscan]

/-! ## C4: consecutive allocations from one block -/

theorem ngx_palloc_block_walk_length (bs : List ngx_pool_data_t) (i cur : Nat) :
    (ngx_palloc_block_walk i cur bs).2.length = bs.length := by
  induction bs generalizing i cur with
  | nil => simp [ngx_palloc_block_walk]
  | cons p rest ih =>
    cases rest with
    | nil => simp [ngx_palloc_block_walk]
    | cons q rest1 =>
      simp only [ngx_palloc_block_walk, List.length_cons]
      rw [ih]
      simp

theorem source_block_last (w : ngx_mem_pool) (size align mb i : Nat)
    (h : source_block w size align mb = some i) :
    ∃ b, (ngx_palloc_small w size align mb).2.pool.blocks[i]? = some b ∧
      b.last = ptr_add (ngx_palloc_small w size align mb).1 size := by
  unfold source_block at h
  cases hs : served_by w size align with
  | some j =>
    rw [hs] at h
    simp only [Option.some.injEq] at h
    subst h
    obtain ⟨b, hb, _, _, _, hw1⟩ := served_by_some w size align mb j hs
    have hj : j < w.pool.blocks.length := by
      rcases Nat.lt_or_ge j w.pool.blocks.length with hlt | hge
      · exact hlt
      · rw [List.getElem?_eq_none hge] at hb; simp at hb
    refine ⟨{ b with last := ptr_add (ngx_palloc_small w size align mb).1 size }, ?_, rfl⟩
    rw [hw1]
    simp [List.getElem?_set_self hj]
  | none =>
    rw [hs] at h
    simp only [] at h
    by_cases hmb : mb = 0
    · simp [hmb] at h
    · simp only [if_neg hmb, Option.some.injEq] at h
      have hscan : ngx_palloc_small_scan size align (w.pool.blocks.drop w.pool.current) = none := by
        unfold served_by at hs
        cases hsc : ngx_palloc_small_scan size align (w.pool.blocks.drop w.pool.current) with
        | none => rfl
        | some t => rw [hsc] at hs; simp at hs
      simp only [ngx_palloc_small, hscan, ngx_palloc_block, if_neg hmb]
      refine ⟨{ addr := mb,
                last := ptr_add
                  (ngx_align_ptr (ptr_add mb sizeof_ngx_pool_data_t) NGX_ALIGNMENT) size,
                end_ := ptr_add mb size, failed := 0 }, ?_, rfl⟩
      have hlen : (w.pool.blocks.take w.pool.current ++
          (ngx_palloc_block_walk w.pool.current w.pool.current
            (w.pool.blocks.drop w.pool.current)).2).length = i := by
        rw [List.length_append, ngx_palloc_block_walk_length, ← List.length_append,
          List.take_append_drop]
        exact h
      rw [← List.append_assoc, ← hlen]
      generalize w.pool.blocks.take w.pool.current ++
          (ngx_palloc_block_walk w.pool.current w.pool.current
            (w.pool.blocks.drop w.pool.current)).2 = front
      rw [List.getElem?_append_right (Nat.le_refl _)]
      simp

theorem ngx_palloc_small_consecutive (w : ngx_mem_pool) (a al1 k al2 mb1 mb2 i : Nat)
    (h1 : source_block w a al1 mb1 = some i)
    (h2 : served_by (ngx_palloc_small w a al1 mb1).2 k al2 = some i) :
    (al2 = 0 →
      (ngx_palloc_small (ngx_palloc_small w a al1 mb1).2 k al2 mb2).1 =
        ptr_add (ngx_palloc_small w a al1 mb1).1 a) ∧
    ((ngx_palloc_small w a al1 mb1).1 + a + NGX_ALIGNMENT ≤ SIZE_MOD →
      (ngx_palloc_small w a al1 mb1).1 + a ≤
          (ngx_palloc_small (ngx_palloc_small w a al1 mb1).2 k al2 mb2).1 ∧
        (al2 = 0 →
          (ngx_palloc_small (ngx_palloc_small w a al1 mb1).2 k al2 mb2).1 =
            (ngx_palloc_small w a al1 mb1).1 + a)) := by
  obtain ⟨b, hb, hlast⟩ := source_block_last w a al1 mb1 i h1
  obtain ⟨b2, hb2, _, hp2, _, _⟩ := served_by_some _ k al2 mb2 i h2
  rw [hb] at hb2
  simp only [Option.some.injEq] at hb2
  subst hb2
  rw [hp2, hlast]
  refine ⟨fun h0 => by simp [h0], fun hno => ?_⟩
  have hadd : ptr_add (ngx_palloc_small w a al1 mb1).1 a = (ngx_palloc_small w a al1 mb1).1 + a := by
    unfold ptr_add
    apply Nat.mod_eq_of_lt
    simp only [NGX_ALIGNMENT] at hno
    omega
  rw [hadd]
  refine ⟨?_, fun h0 => by simp [h0]⟩
  split
  · exact ngx_align_ptr_ge _ hno
  · exact Nat.le_refl _

/-- C4: in every pool state, let a small allocation of size `a` (`ngx_palloc` or
`ngx_pnalloc` with `a` below the threshold) return `p1` from the block at
position `i` (an existing block, or the block just appended by block growth).
If the next call is `ngx_pnalloc(k)`, `k` below the threshold, and is served by
the same block without block growth, it returns exactly `p1 + a` (pointer
arithmetic; the integer `p1 + a` when that stays at least one alignment unit
below the top of the address space).  If the next call is `ngx_palloc(k)` served
by the same block without block growth, it returns an address `>= p1 + a`, again
when `p1 + a` stays one alignment unit below the top of the address space. -/
theorem C4_consecutive_small_allocations (w : ngx_mem_pool) (a k ml1 mb1 ml2 mb2 i : Nat)
    (r1 : Nat × ngx_mem_pool) (ha : a < w.pool.max) (hk : k < w.pool.max)
    (hr1 : (r1 = ngx_palloc w a ml1 mb1 ∧ source_block w a 1 mb1 = some i) ∨
      (r1 = ngx_pnalloc w a ml1 mb1 ∧ source_block w a 0 mb1 = some i)) :
    (served_by r1.2 k 0 = some i →
      (ngx_pnalloc r1.2 k ml2 mb2).1 = ptr_add r1.1 a ∧
      (r1.1 + a + NGX_ALIGNMENT ≤ SIZE_MOD → (ngx_pnalloc r1.2 k ml2 mb2).1 = r1.1 + a)) ∧
    (served_by r1.2 k 1 = some i → r1.1 + a + NGX_ALIGNMENT ≤ SIZE_MOD →
      r1.1 + a ≤ (ngx_palloc r1.2 k ml2 mb2).1) := by
  have key : ∀ al1 : Nat, r1 = ngx_palloc_small w a al1 mb1 →
      source_block w a al1 mb1 = some i →
      (served_by r1.2 k 0 = some i →
        (ngx_pnalloc r1.2 k ml2 mb2).1 = ptr_add r1.1 a ∧
        (r1.1 + a + NGX_ALIGNMENT ≤ SIZE_MOD → (ngx_pnalloc r1.2 k ml2 mb2).1 = r1.1 + a)) ∧
      (served_by r1.2 k 1 = some i → r1.1 + a + NGX_ALIGNMENT ≤ SIZE_MOD →
        r1.1 + a ≤ (ngx_palloc r1.2 k ml2 mb2).1) := by
    intro al1 hr hsrc
    subst hr
    have hmax : (ngx_palloc_small w a al1 mb1).2.pool.max = w.pool.max :=
      (ngx_palloc_small_frame w a al1 mb1).2.1
    have hk1 : k < (ngx_palloc_small w a al1 mb1).2.pool.max := by rw [hmax]; exact hk
    have e1 : ngx_pnalloc (ngx_palloc_small w a al1 mb1).2 k ml2 mb2 =
        ngx_palloc_small (ngx_palloc_small w a al1 mb1).2 k 0 mb2 := by
      simp [ngx_pnalloc, hk1]
    have e2 : ngx_palloc (ngx_palloc_small w a al1 mb1).2 k ml2 mb2 =
        ngx_palloc_small (ngx_palloc_small w a al1 mb1).2 k 1 mb2 := by
      simp [ngx_palloc, hk1]
    rw [e1, e2]
    constructor
    · intro h2
      have h := ngx_palloc_small_consecutive w a al1 k 0 mb1 mb2 i hsrc h2
      exact ⟨h.1 rfl, fun hno => (h.2 hno).2 rfl⟩
    · intro h2 hno
      exact ((ngx_palloc_small_consecutive w a al1 k 1 mb1 mb2 i hsrc h2).2 hno).1
  rcases hr1 with ⟨hr, hsrc⟩ | ⟨hr, hsrc⟩
  · exact key 1 (by rw [hr]; simp [ngx_palloc, ha]) hsrc
  · exact key 0 (by rw [hr]; simp [ngx_pnalloc, ha]) hsrc

/-- Witness of C4: on the pool of `create(512)` with 8 bytes left in the head
block, `ngx_pnalloc(41)` grows the chain and returns 8224 from the new block
(position 1); from that block the next `ngx_pnalloc(20)` returns 8265, with no
padding, and the next `ngx_palloc(20)` would return 8272. -/
theorem C4_consecutive_small_allocations_witness :
    (ngx_pnalloc (ngx_palloc pool512 440 0 0).2 41 0 8192).1 = 8224 ∧
    (ngx_pnalloc (ngx_pnalloc (ngx_palloc pool512 440 0 0).2 41 0 8192).2 20 0 0).1 = 8265 ∧
    (ngx_palloc (ngx_pnalloc (ngx_palloc pool512 440 0 0).2 41 0 8192).2 20 0 0).1 = 8272 ∧
    (ngx_pnalloc (ngx_pnalloc (ngx_palloc pool512 440 0 0).2 41 0 8192).2 20 0 0).1 =
      ptr_add (ngx_pnalloc (ngx_palloc pool512 440 0 0).2 41 0 8192).1 41 ∧
    (ngx_pnalloc (ngx_palloc pool512 440 0 0).2 41 0 8192).1 + 41 ≤
      (ngx_palloc (ngx_pnalloc (ngx_palloc pool512 440 0 0).2 41 0 8192).2 20 0 0).1 :=
  ⟨by decide, by decide, by decide,
    ((C4_consecutive_small_allocations (ngx_palloc pool512 440 0 0).2 41 20 0 8192 0 0 1
      (ngx_pnalloc (ngx_palloc pool512 440 0 0).2 41 0 8192) (by decide) (by decide)
      (Or.inr ⟨rfl, by decide⟩)).1 (by decide)).1,
    (C4_consecutive_small_allocations (ngx_palloc pool512 440 0 0).2 41 20 0 8192 0 0 1
      (ngx_pnalloc (ngx_palloc pool512 440 0 0).2 41 0 8192) (by decide) (by decide)
      (Or.inr ⟨rfl, by decide⟩)).2 (by decide) (by decide)⟩

/-! ## C5: zero-filled allocation -/

theorem ngx_pcalloc_eq (w : ngx_mem_pool) (n ml mb : Nat) (mem : Nat → Nat) :
    ngx_pcalloc w n ml mb mem =
      if (ngx_palloc w n ml mb).1 ≠ 0 then
        ((ngx_palloc w n ml mb).1,
          { (ngx_palloc w n ml mb).2 with pool := { (ngx_palloc w n ml mb).2.pool with
              cleanup := (ngx_palloc w n ml mb).2.pool.cleanup.map
                (ngx_memzero_entry (ngx_palloc w n ml mb).1 n) } },
          ngx_memzero mem (ngx_palloc w n ml mb).1 n)
      else ((ngx_palloc w n ml mb).1, (ngx_palloc w n ml mb).2, mem) := rfl

theorem ngx_palloc_large_scan_count (p : Nat) :
    ∀ (large : List ngx_pool_large_s) (n : Nat) (large1 : List ngx_pool_large_s),
      (∀ r ∈ large, r.alloc ≠ p) →
      ngx_palloc_large_scan p n large = some large1 →
      large1.countP (fun r => r.alloc = p) = 1 ∧ large1.length = large.length := by
  intro large
  induction large with
  | nil => intro n large1 _ h; simp [ngx_palloc_large_scan] at h
  | cons l rest ih =>
    intro n large1 hfresh h
    have hrest : ∀ r ∈ rest, r.alloc ≠ p := fun r hr => hfresh r (List.mem_cons_of_mem _ hr)
    have hl : l.alloc ≠ p := hfresh l (List.mem_cons_self _ _)
    have hzero : rest.countP (fun r => r.alloc = p) = 0 := by
      rw [List.countP_eq_zero]
      intro r hr
      simpa using hrest r hr
    unfold ngx_palloc_large_scan at h
    by_cases h0 : l.alloc = 0
    · rw [if_pos h0] at h
      simp only [Option.some.injEq] at h
      subst h
      simp [List.countP_cons, hzero]
    · rw [if_neg h0] at h
      by_cases hn : 3 < n
      · rw [if_pos hn] at h; simp at h
      · rw [if_neg hn] at h
        cases hrec : ngx_palloc_large_scan p (n + 1) rest with
        | none => rw [hrec] at h; simp at h
        | some rest1 =>
          rw [hrec] at h
          simp only [Option.some.injEq] at h
          subst h
          obtain ⟨hc, hlen⟩ := ih (n + 1) rest1 hrest hrec
          simp [List.countP_cons, hc, hl, hlen]

/-- C6: in every pool state and for every size at least the threshold
(equality included), `ngx_palloc` and `ngx_pnalloc` both run
`ngx_palloc_large`; if the result is not null it is the region `ml` obtained
from the allocator, and exactly one record of the registry holds it afterwards,
provided no record held that address before. -/
theorem C6_large_allocation_tracked_once (w : ngx_mem_pool) (size ml mb : Nat)
    (hsize : w.pool.max ≤ size)
    (hfresh : ∀ r ∈ w.pool.large, r.alloc ≠ ml)
    (hok : (ngx_palloc w size ml mb).1 ≠ 0) :
    ngx_palloc w size ml mb = ngx_palloc_large w size ml mb ∧
    ngx_pnalloc w size ml mb = ngx_palloc w size ml mb ∧
    (ngx_palloc w size ml mb).1 = ml ∧
    (ngx_palloc w size ml mb).2.pool.large.countP (fun r => r.alloc = ml) = 1 := by
  have hnot : ¬ size < w.pool.max := by omega
  have e1 : ngx_palloc w size ml mb = ngx_palloc_large w size ml mb := by
    simp [ngx_palloc, hnot]
  have e2 : ngx_pnalloc w size ml mb = ngx_palloc_large w size ml mb := by
    simp [ngx_pnalloc, hnot]
  rw [e2, e1]
  rw [e1] at hok
  refine ⟨rfl, rfl, ?_⟩
  have hml : ml ≠ 0 := by
    intro h0
    apply hok
    simp [ngx_palloc_large, h0]
  have hzero : w.pool.large.countP (fun r => r.alloc = ml) = 0 := by
    rw [List.countP_eq_zero]
    intro r hr
    simpa using hfresh r hr
  unfold ngx_palloc_large at hok ⊢
  simp only [if_neg hml] at hok ⊢
  cases hscan : ngx_palloc_large_scan ml 0 w.pool.large with
  | some large1 =>
    simp only []
    exact ⟨trivial, (ngx_palloc_large_scan_count ml _ 0 large1 hfresh hscan).1⟩
  | none =>
    simp only [hscan] at hok ⊢
    by_cases hr : (ngx_palloc_small { pool := w.pool, trace := w.trace ++ [Event.malloc size ml] }
        sizeof_ngx_pool_large_s 1 mb).1 = 0
    · simp [hr] at hok
    · simp only [if_neg hr]
      refine ⟨trivial, ?_⟩
      have hf := (ngx_palloc_small_frame
        { pool := w.pool, trace := w.trace ++ [Event.malloc size ml] }
        sizeof_ngx_pool_large_s 1 mb).1
      simp only [List.countP_cons, hf, hzero]
      simp

/-- Witness of C6: on the pool of `create(512)` the request of exactly the
threshold, 448 bytes, takes the large path and returns the allocator's region. -/
theorem C6_large_allocation_tracked_once_witness :
    pool512.pool.max ≤ 448 ∧
    ngx_palloc pool512 448 20000 0 = ngx_palloc_large pool512 448 20000 0 ∧
    ngx_pnalloc pool512 448 20000 0 = ngx_palloc pool512 448 20000 0 ∧
    (ngx_palloc pool512 448 20000 0).1 = 20000 ∧
    (ngx_palloc pool512 448 20000 0).2.pool.large.countP (fun r => r.alloc = 20000) = 1 :=
  ⟨by decide, C6_large_allocation_tracked_once pool512 448 20000 0 (by decide) (by decide) (by decide)⟩

/-! ## C7: free of an untracked pointer -/

theorem ngx_pfree_scan_untracked (p : Nat) :
    ∀ (large large1 : List ngx_pool_large_s),
      (∀ r ∈ large, r.alloc ≠ 0 → r.alloc ≠ p) →
      ngx_pfree_scan p large = some large1 → large1 = large ∧ p = 0 := by
  intro large
  induction large with
  | nil => intro large1 _ h; simp [ngx_pfree_scan] at h
  | cons l rest ih =>
    intro large1 hun h
    have hrest : ∀ r ∈ rest, r.alloc ≠ 0 → r.alloc ≠ p :=
      fun r hr => hun r (List.mem_cons_of_mem _ hr)
    unfold ngx_pfree_scan at h
    by_cases hp : p = l.alloc
    · rw [if_pos hp] at h
      simp only [Option.some.injEq] at h
      have hl0 : l.alloc = 0 := by
        by_contra hne
        exact hun l (List.mem_cons_self _ _) hne hp.symm
      subst h
      refine ⟨?_, by rw [hp, hl0]⟩
      congr 1
      cases l
      simp only at hl0
      simp [hl0]
    · rw [if_neg hp] at h
      cases hrec : ngx_pfree_scan p rest with
      | none => rw [hrec] at h; simp at h
      | some rest1 =>
        rw [hrec] at h
        simp only [Option.some.injEq] at h
        subst h
        obtain ⟨e, hp0⟩ := ih rest1 hrest hrec
        exact ⟨by rw [e], hp0⟩

/-- C7: in every pool state, if no record of the registry holds the region `p`
(cleared records hold none), `ngx_pfree(p)` leaves the pool and the trace of
allocator calls exactly as they were: no block, no record, no cleanup entry,
neither `current` nor `max` changes and nothing is released. -/
theorem C7_pfree_untracked_noop (w : ngx_mem_pool) (p : Nat)
    (hun : ∀ r ∈ w.pool.large, r.alloc ≠ 0 → r.alloc ≠ p) :
    ngx_pfree w p = w := by
  unfold ngx_pfree
  cases hscan : ngx_pfree_scan p w.pool.large with
  | none => rfl
  | some large1 =>
    obtain ⟨e, hp0⟩ := ngx_pfree_scan_untracked p _ large1 hun hscan
    subst e
    simp [hp0, c_free]

/-- Witness of C7: after a small and a large allocation on the pool of
`create(512)`, `ngx_pfree` of the small allocation's pointer changes nothing. -/
theorem C7_pfree_untracked_noop_witness :
    (ngx_palloc pool512 128 0 0).1 = 4160 ∧
    (ngx_palloc (ngx_palloc pool512 128 0 0).2 512 20000 0).2.pool.large =
      [{ addr := 4288, alloc := 20000 }] ∧
    ngx_pfree (ngx_palloc (ngx_palloc pool512 128 0 0).2 512 20000 0).2 4160 =
      (ngx_palloc (ngx_palloc pool512 128 0 0).2 512 20000 0).2 :=
  ⟨by decide, by decide,
    C7_pfree_untracked_noop (ngx_palloc (ngx_palloc pool512 128 0 0).2 512 20000 0).2 4160
      (by decide)⟩

/-! ## C8: free of a tracked region and reuse of its record -/

/-- C8 (as stated, refuted): in the pool of `create(512)` with six live records,
`ngx_pfree` of the region of the sixth record clears that record, but the next
large allocation does not reuse it: the scan gives up after five live records,
a seventh record is prepended and the head block's cursor advances. -/
theorem C8_counterexample :
    ngx_create_pool 512 4096 = some pool512 ∧
    pool512_six.pool.large.map (fun r => r.alloc) = [70000, 60000, 50000, 40000, 30000, 20000] ∧
    (ngx_pfree pool512_six 20000).pool.large.map (fun r => r.alloc) =
      [70000, 60000, 50000, 40000, 30000, 0] ∧
    (ngx_pfree pool512_six 20000).pool.max ≤ 1000 ∧
    (ngx_palloc (ngx_pfree pool512_six 20000) 1000 80000 0).1 = 80000 ∧
    (ngx_palloc (ngx_pfree pool512_six 20000) 1000 80000 0).2.pool.large.map (fun r => r.alloc) =
      [80000, 70000, 60000, 50000, 40000, 30000, 0] ∧
    (ngx_pfree pool512_six 20000).pool.blocks.map (fun b => b.last) = [4256] ∧
    (ngx_palloc (ngx_pfree pool512_six 20000) 1000 80000 0).2.pool.blocks.map (fun b => b.last) =
      [4272] := by
  decide

theorem ngx_pfree_scan_first (p : Nat) :
    ∀ (large : List ngx_pool_large_s) (i : Nat) (r : ngx_pool_large_s),
      large[i]? = some r → r.alloc = p →
      (∀ j, j < i → ∀ c, large[j]? = some c → c.alloc ≠ p) →
      ngx_pfree_scan p large = some (large.set i { r with alloc := 0 }) := by
  intro large
  induction large with
  | nil => intro i r h; simp at h
  | cons l rest ih =>
    intro i r h hr hfirst
    unfold ngx_pfree_scan
    cases i with
    | zero =>
      simp only [List.getElem?_cons_zero, Option.some.injEq] at h
      subst h
      simp [hr]
    | succ i =>
      have hl : ¬ p = l.alloc := fun e => hfirst 0 (Nat.succ_pos i) l (by simp) e.symm
      rw [if_neg hl]
      simp only [List.getElem?_cons_succ] at h
      have hfirst1 : ∀ j, j < i → ∀ c, rest[j]? = some c → c.alloc ≠ p :=
        fun j hj c hc => hfirst (j + 1) (by omega) c (by simpa using hc)
      rw [ih i r h hr hfirst1]
      simp

theorem ngx_palloc_large_scan_reuse (p : Nat) :
    ∀ (large : List ngx_pool_large_s) (i n : Nat) (c : ngx_pool_large_s),
      large[i]? = some c → c.alloc = 0 → i + n ≤ 4 →
      ∃ j d, j ≤ i ∧ large[j]? = some d ∧ d.alloc = 0 ∧
        ngx_palloc_large_scan p n large = some (large.set j { d with alloc := p }) := by
  intro large
  induction large with
  | nil => intro i n c h; simp at h
  | cons l rest ih =>
    intro i n c h hc hin
    unfold ngx_palloc_large_scan
    by_cases hl : l.alloc = 0
    · exact ⟨0, l, Nat.zero_le _, by simp, hl, by simp [hl]⟩
    · rw [if_neg hl]
      cases i with
      | zero =>
        simp only [List.getElem?_cons_zero, Option.some.injEq] at h
        subst h
        exact absurd hc hl
      | succ i =>
        have hn : ¬ 3 < n := by omega
        rw [if_neg hn]
        simp only [List.getElem?_cons_succ] at h
        obtain ⟨j, d, hj, hd, hd0, hscan⟩ := ih i (n + 1) c h hc (by omega)
        refine ⟨j + 1, d, by omega, by simpa using hd, hd0, ?_⟩
        rw [hscan]
        simp

/-- C8 (amended): in every pool state, if `p` is the region of a record of the
registry, `ngx_pfree(p)` releases `p` once, clears the first record that holds
`p` and keeps every record in place; and if that record is among the first
three records of the registry, the next successful large allocation stores its
region in an already existing cleared record, so the number of records and all
blocks are the same after that allocation as before it. -/
theorem C8_pfree_clears_and_slot_is_reused (w : ngx_mem_pool) (p i : Nat)
    (r : ngx_pool_large_s) (hp : p ≠ 0)
    (hi : w.pool.large[i]? = some r) (hr : r.alloc = p)
    (hfirst : ∀ j, j < i → ∀ c, w.pool.large[j]? = some c → c.alloc ≠ p) :
    ngx_pfree w p =
      { pool := { w.pool with large := w.pool.large.set i { r with alloc := 0 } }
        trace := w.trace ++ [Event.free p] } ∧
    (i < 3 → ∀ size ml mb, w.pool.max ≤ size → ml ≠ 0 →
      (ngx_palloc (ngx_pfree w p) size ml mb).1 = ml ∧
      (ngx_palloc (ngx_pfree w p) size ml mb).2.pool.large.length = w.pool.large.length ∧
      (ngx_palloc (ngx_pfree w p) size ml mb).2.pool.blocks = w.pool.blocks ∧
      ∃ j d, j ≤ i ∧ (ngx_pfree w p).pool.large[j]? = some d ∧ d.alloc = 0 ∧
        (ngx_palloc (ngx_pfree w p) size ml mb).2.pool.large =
          (ngx_pfree w p).pool.large.set j { d with alloc := ml }) := by
  have hfree : ngx_pfree w p =
      { pool := { w.pool with large := w.pool.large.set i { r with alloc := 0 } }
        trace := w.trace ++ [Event.free p] } := by
    unfold ngx_pfree
    rw [ngx_pfree_scan_first p _ i r hi hr hfirst]
    simp [c_free, hp]
  refine ⟨hfree, ?_⟩
  intro hi3 size ml mb hsize hml
  have hilt : i < w.pool.large.length := by
    rcases Nat.lt_or_ge i w.pool.large.length with hlt | hge
    · exact hlt
    · rw [List.getElem?_eq_none hge] at hi; simp at hi
  rw [hfree]
  have hcleared : (w.pool.large.set i { r with alloc := 0 })[i]? =
      some { r with alloc := 0 } := by
    simp [List.getElem?_set_self hilt]
  obtain ⟨j, d, hj, hd, hd0, hscan⟩ :=
    ngx_palloc_large_scan_reuse ml _ i 0 _ hcleared rfl (by omega)
  have hnot : ¬ size < w.pool.max := by omega
  simp only [ngx_palloc, hnot, if_false, ngx_palloc_large, if_neg hml, hscan]
  refine ⟨trivial, by simp, trivial, j, d, hj, hd, hd0, rfl⟩

/-- Witness of C8: on the pool of `create(512)` with one large allocation at
20000, `ngx_pfree(20000)` clears the only record and the next large allocation
reuses it. -/
theorem C8_pfree_clears_and_slot_is_reused_witness :
    (ngx_palloc pool512 512 20000 0).2.pool.large[0]? = some { addr := 4160, alloc := 20000 } ∧
    ngx_pfree (ngx_palloc pool512 512 20000 0).2 20000 =
      { pool := { (ngx_palloc pool512 512 20000 0).2.pool with
                  large := (ngx_palloc pool512 512 20000 0).2.pool.large.set 0
                    { addr := 4160, alloc := 0 } }
        trace := (ngx_palloc pool512 512 20000 0).2.trace ++ [Event.free 20000] } ∧
    (ngx_palloc (ngx_pfree (ngx_palloc pool512 512 20000 0).2 20000) 600 30000 0).2.pool.large =
      [{ addr := 4160, alloc := 30000 }] :=
  ⟨by decide,
    (C8_pfree_clears_and_slot_is_reused (ngx_palloc pool512 512 20000 0).2 20000 0
      { addr := 4160, alloc := 20000 } (by decide) (by decide) rfl
      (fun j hj => absurd hj (Nat.not_lt_zero j))).1,
    by decide⟩

/-! ## C9: reset -/

theorem c_free_of_ne_zero (p : Nat) (tr : List Event) (hp : p ≠ 0) :
    c_free p tr = tr ++ [Event.free p] := by
  simp [c_free, hp]

theorem free_large_eq (large : List ngx_pool_large_s) :
    ∀ tr : List Event,
      free_large tr large =
        tr ++ (large.filter (fun r => r.alloc ≠ 0)).map (fun r => Event.free r.alloc) := by
  induction large with
  | nil => intro tr; simp [free_large]
  | cons l rest ih =>
    intro tr
    unfold free_large
    by_cases hl : l.alloc = 0
    · simp [hl, ih]
    · simp [hl, ih, c_free_of_ne_zero]

/-- C9 (as stated, refuted): on the pool of `create(80)`, whose threshold is 16,
a cleanup entry is a large region (the allocator places it at 20000); it is given
handler 111.  `ngx_reset_pool()` frees the region 20000 while the cleanup chain
still lists the entry at 20000: before the reset `ngx_destroy_pool()` calls the
handler and returns, after it the node it would read has been released. -/
theorem C9_counterexample :
    ngx_create_pool 80 4096 = some pool80 ∧
    (run pool80 [Op.cleanup_add 0 20000 0 0 0, Op.set_handler 20000 111]).pool.cleanup =
      [{ addr := 20000, handler := 111, data := 0 }] ∧
    ngx_destroy_pool (run pool80 [Op.cleanup_add 0 20000 0 0 0, Op.set_handler 20000 111]) =
      Outcome.returns [Event.malloc 80 4096, Event.malloc 24 20000, Event.handler 111 0,
        Event.free 20000, Event.free 4096] ∧
    (ngx_reset_pool
      (run pool80 [Op.cleanup_add 0 20000 0 0 0, Op.set_handler 20000 111])).trace =
      [Event.malloc 80 4096, Event.malloc 24 20000, Event.free 20000] ∧
    (ngx_reset_pool
      (run pool80 [Op.cleanup_add 0 20000 0 0 0, Op.set_handler 20000 111])).pool.cleanup.map
      (fun c => (c.addr, c.handler)) = [(20000, 111)] ∧
    region_freed (ngx_reset_pool
      (run pool80 [Op.cleanup_add 0 20000 0 0 0, Op.set_handler 20000 111])).trace 20000 = true ∧
    (ngx_reset_pool
      (run pool80 [Op.cleanup_add 0 20000 0 0 0, Op.set_handler 20000 111])).pool.cleanup ≠
      (run pool80 [Op.cleanup_add 0 20000 0 0 0, Op.set_handler 20000 111]).pool.cleanup ∧
    ngx_destroy_pool (ngx_reset_pool
      (run pool80 [Op.cleanup_add 0 20000 0 0 0, Op.set_handler 20000 111])) =
      Outcome.unknown := by
  decide

/-- C9 (amended): in every pool state `ngx_reset_pool()` keeps the chain of
blocks (same number, same order, same address and same `d.end` for each), sets
every block's `d.last` to the start of its data region (block address plus
`sizeof(ngx_pool_s)` for the head, plus `sizeof(ngx_pool_data_t)` for the
others) and its `failed` to 0, sets `current` to the head, empties the registry
after one `free` for each record that is not cleared (in registry order, and
nothing else is called, so no cleanup handler runs), and leaves `max` unchanged.
The cleanup chain keeps its entries, their order, handlers and data, but no
entry owns its memory afterwards. -/
theorem C9_reset_pool (w : ngx_mem_pool) :
    (ngx_reset_pool w).pool.blocks.length = w.pool.blocks.length ∧
    (∀ (i : Nat) (b : ngx_pool_data_t), w.pool.blocks[i]? = some b →
      (ngx_reset_pool w).pool.blocks[i]? =
        some ({ addr := b.addr, last := data_start i b, end_ := b.end_, failed := 0 } :
          ngx_pool_data_t)) ∧
    (ngx_reset_pool w).pool.current = 0 ∧
    (ngx_reset_pool w).pool.large = [] ∧
    (ngx_reset_pool w).pool.max = w.pool.max ∧
    (ngx_reset_pool w).pool.cleanup.map (fun c => (c.addr, c.handler, c.data)) =
      w.pool.cleanup.map (fun c => (c.addr, c.handler, c.data)) ∧
    (∀ c ∈ (ngx_reset_pool w).pool.cleanup, c.intact = false) ∧
    (ngx_reset_pool w).trace =
      w.trace ++ (w.pool.large.filter (fun r => r.alloc ≠ 0)).map (fun r => Event.free r.alloc) := by
  refine ⟨?_, ?_, rfl, rfl, rfl, ?_, ?_, ?_⟩
  · unfold ngx_reset_pool
    cases w.pool.blocks with
    | nil => rfl
    | cons h rest => simp
  · intro i b hb
    unfold ngx_reset_pool
    cases hbl : w.pool.blocks with
    | nil => rw [hbl] at hb; simp at hb
    | cons h rest =>
      rw [hbl] at hb
      cases i with
      | zero =>
        simp only [List.getElem?_cons_zero, Option.some.injEq] at hb
        subst hb
        simp [data_start]
      | succ i =>
        simp only [List.getElem?_cons_succ] at hb
        simp [data_start, hb]
  · simp [ngx_reset_pool, Function.comp_def]
  · intro c hc
    simp only [ngx_reset_pool, List.mem_map] at hc
    obtain ⟨c0, _, hc0⟩ := hc
    rw [← hc0]
  · unfold ngx_reset_pool
    exact free_large_eq _ _

/-! ## Blocks keep their address and limit -/

/-- C12 (the code at the failing inputs): after `create(512)`, `ngx_palloc(440)`
and the `ngx_palloc(16)` that grows the chain, the new block has `d.last = 8240`
above its `d.end = 8208`, so the chain does not satisfy
`dataStart <= d.last <= d.end`; and after `create(100)` and `ngx_pnalloc(35)`,
`ngx_palloc(1)` rounds the cursor 4195 up to 4200, past `d.end = 4196`, and
leaves `d.last = 4201` in the head block. -/
theorem C12_cursor_passes_limit :
    ngx_create_pool 512 4096 = some pool512 ∧
    pool512_grown.pool.blocks =
      [{ addr := 4096, last := 4600, end_ := 4608, failed := 0 },
       { addr := 8192, last := 8240, end_ := 8208, failed := 0 }] ∧
    ¬ (∀ ib ∈ pool512_grown.pool.blocks.enum,
        data_start ib.1 ib.2 ≤ ib.2.last ∧ ib.2.last ≤ ib.2.end_) ∧
    ngx_create_pool 100 4096 = some pool100 ∧
    (run pool100 [Op.pnalloc 35 0 0, Op.palloc 1 0 0]).pool.blocks =
      [{ addr := 4096, last := 4201, end_ := 4196, failed := 0 }] ∧
    ¬ (∀ ib ∈ (run pool100 [Op.pnalloc 35 0 0, Op.palloc 1 0 0]).pool.blocks.enum,
        data_start ib.1 ib.2 ≤ ib.2.last ∧ ib.2.last ≤ ib.2.end_) := by
  decide

/-! ## C13: a small allocation stays inside its block -/

/-- C13 (the code at the failing input): in the pool of `create(512)` grown by a
block at 8192, two more calls `ngx_palloc(400)` are both served by that block;
the second returns 8640 although the block's 512 bytes end at 8704, so the 400
bytes handed out run to 9040, past the memory obtained for the block. -/
theorem C13_allocation_runs_past_block :
    sizeof_ngx_pool_s ≤ 512 ∧
    400 < pool512_grown.pool.max ∧
    source_block pool512_grown 400 1 0 = some 1 ∧
    (ngx_palloc pool512_grown 400 0 0).1 = 8240 ∧
    source_block (ngx_palloc pool512_grown 400 0 0).2 400 1 0 = some 1 ∧
    (ngx_palloc (ngx_palloc pool512_grown 400 0 0).2 400 0 0).1 = 8640 ∧
    (ngx_palloc (ngx_palloc pool512_grown 400 0 0).2 400 0 0).2.pool.blocks.map (fun b => b.addr) =
      [4096, 8192] ∧
    ¬ (ptr_add (ngx_palloc (ngx_palloc pool512_grown 400 0 0).2 400 0 0).1 400 ≤
        ptr_add 8192 512) := by
  decide

/-! ## C14: a grown block has the footprint of the first block -/

/-- C14 (the code at the failing input): the growth triggered by `ngx_palloc(16)`
in the pool of `create(512)` requests 512 bytes from the allocator, as large as
the first block, but sets the new block's `d.end` 16 bytes after its start, so
`d.end - block start` is 16 for the new block and 512 for the head. -/
theorem C14_grown_block_limit_is_request_size :
    pool512_grown.trace = [Event.malloc 512 4096, Event.malloc 512 8192] ∧
    pool512_grown.pool.blocks.map (fun b => ptr_diff b.end_ b.addr) = [512, 16] := by
  decide

/-! ## C15: where cleanup registration takes its memory -/

/-- C16 (the code at the failing input): in the pool of `create(512)` whose
registry holds three live records followed by a cleared one, the next large
allocation does not prepend a record: the scan goes on past the third record,
stores the new region 60000 in the cleared fourth record, and the registry keeps
its four records. -/
theorem C16_scan_reuses_fourth_record :
    ngx_create_pool 512 4096 = some pool512 ∧
    pool512_four.pool.large.map (fun r => r.alloc) = [50000, 40000, 30000, 0] ∧
    pool512_four.pool.max ≤ 1000 ∧
    (ngx_palloc pool512_four 1000 60000 0).1 = 60000 ∧
    (ngx_palloc pool512_four 1000 60000 0).2.pool.large.map (fun r => r.alloc) =
      [50000, 40000, 30000, 60000] := by
  decide

/-! ## C17: when block growth advances `current` -/

theorem ngx_palloc_block_walk_two (i cur : Nat) (p q : ngx_pool_data_t)
    (rest : List ngx_pool_data_t) :
    ngx_palloc_block_walk i cur (p :: q :: rest) =
      ((ngx_palloc_block_walk (i + 1) (if 4 < p.failed then i + 1 else cur) (q :: rest)).1,
        { p with failed := (p.failed + 1) % UINT_MOD } ::
          (ngx_palloc_block_walk (i + 1) (if 4 < p.failed then i + 1 else cur) (q :: rest)).2) :=
  rfl

theorem ngx_palloc_block_walk_current_same :
    ∀ (bs : List ngx_pool_data_t) (i cur : Nat),
      (∀ (k : Nat) (b : ngx_pool_data_t), k + 1 < bs.length → bs[k]? = some b → b.failed ≤ 4) →
      (ngx_palloc_block_walk i cur bs).1 = cur := by
  intro bs
  induction bs with
  | nil => intro i cur _; rfl
  | cons p rest ih =>
    intro i cur h
    cases rest with
    | nil => rfl
    | cons q rest1 =>
      rw [ngx_palloc_block_walk_two]
      have hp : p.failed ≤ 4 := h 0 p (by simp) (by simp)
      have hnot : ¬ 4 < p.failed := by omega
      simp only [if_neg hnot]
      apply ih
      intro k b hk hb
      exact h (k + 1) b (by simp at hk ⊢; omega) (by simpa using hb)

theorem ngx_palloc_block_walk_current_last :
    ∀ (bs : List ngx_pool_data_t) (i cur k : Nat) (b : ngx_pool_data_t),
      k + 1 < bs.length → bs[k]? = some b → 4 < b.failed →
      (∀ (j : Nat) (c : ngx_pool_data_t), k < j → j + 1 < bs.length → bs[j]? = some c →
        c.failed ≤ 4) →
      (ngx_palloc_block_walk i cur bs).1 = i + k + 1 := by
  intro bs
  induction bs with
  | nil => intro i cur k b hk; simp at hk
  | cons p rest ih =>
    intro i cur k b hk hb hover hlater
    cases rest with
    | nil => simp at hk
    | cons q rest1 =>
      rw [ngx_palloc_block_walk_two]
      cases k with
      | zero =>
        simp only [List.getElem?_cons_zero, Option.some.injEq] at hb
        subst hb
        simp only [if_pos hover]
        rw [ngx_palloc_block_walk_current_same]
        intro j c hj hc
        exact hlater (j + 1) c (by omega) (by simp at hj ⊢; omega) (by simpa using hc)
      | succ k0 =>
        simp only [List.getElem?_cons_succ] at hb
        have := ih (i + 1) (if 4 < p.failed then i + 1 else cur) k0 b
          (by simp at hk ⊢; omega) hb hover
          (fun j c hj hj2 hc => hlater (j + 1) c (by omega) (by simp at hj2 ⊢; omega)
            (by simpa using hc))
        simp only [this]
        omega

/-- During a successful block growth the blocks visited by the walk are those
from `current` up to, but not including, the tail of the chain; if no visited
block has `failed > 4` before the increment, `current` is unchanged, and
otherwise `current` becomes the successor of the last visited block with
`failed > 4` before the increment. -/
theorem ngx_palloc_block_current (w : ngx_mem_pool) (size mb : Nat) (hmb : mb ≠ 0) :
    ((∀ (j : Nat) (b : ngx_pool_data_t), w.pool.current ≤ j → j + 1 < w.pool.blocks.length →
        w.pool.blocks[j]? = some b → b.failed ≤ 4) →
      (ngx_palloc_block w size mb).2.pool.current = w.pool.current) ∧
    (∀ (j : Nat) (b : ngx_pool_data_t), w.pool.current ≤ j → j + 1 < w.pool.blocks.length →
      w.pool.blocks[j]? = some b → 4 < b.failed →
      (∀ (i : Nat) (c : ngx_pool_data_t), j < i → i + 1 < w.pool.blocks.length →
        w.pool.blocks[i]? = some c → c.failed ≤ 4) →
      (ngx_palloc_block w size mb).2.pool.current = j + 1) := by
  have hcur : (ngx_palloc_block w size mb).2.pool.current =
      (ngx_palloc_block_walk w.pool.current w.pool.current
        (w.pool.blocks.drop w.pool.current)).1 := by
    simp [ngx_palloc_block, hmb]
  rw [hcur]
  constructor
  · intro h
    apply ngx_palloc_block_walk_current_same
    intro k b hk hb
    rw [List.getElem?_drop] at hb
    rw [List.length_drop] at hk
    exact h (w.pool.current + k) b (by omega) (by omega) hb
  · intro j b hj hjn hb hover hlater
    have hk : j = w.pool.current + (j - w.pool.current) := by omega
    rw [ngx_palloc_block_walk_current_last _ w.pool.current w.pool.current
      (j - w.pool.current) b]
    · omega
    · rw [List.length_drop]; omega
    · rw [List.getElem?_drop, ← hk]; exact hb
    · exact hover
    · intro i c hi hin hc
      rw [List.getElem?_drop] at hc
      rw [List.length_drop] at hin
      exact hlater (w.pool.current + i) c (by omega) (by omega) hc

/-- C18 (as stated, refuted): in the single-block pool of `create(512)` with 8
bytes left, the first growth (triggered by `ngx_palloc(16)`) leaves the head
block's `failed` at 0: the head is the tail of the chain and the walk does not
increment the tail. -/
theorem C18_counterexample :
    ngx_create_pool 512 4096 = some pool512 ∧
    (run pool512 [Op.palloc 440 0 0]).pool.blocks.map (fun b => b.failed) = [0] ∧
    served_by (run pool512 [Op.palloc 440 0 0]) 16 1 = none ∧
    (ngx_palloc (run pool512 [Op.palloc 440 0 0]) 16 0 8192).1 = 8224 ∧
    (ngx_palloc (run pool512 [Op.palloc 440 0 0]) 16 0 8192).2.pool.blocks.map
      (fun b => (b.addr, b.failed)) = [(4096, 0), (8192, 0)] := by
  decide

theorem ngx_palloc_block_walk_getElem :
    ∀ (bs : List ngx_pool_data_t) (i cur k : Nat) (b : ngx_pool_data_t),
      bs[k]? = some b →
      (ngx_palloc_block_walk i cur bs).2[k]? =
        some { b with failed := if k + 1 < bs.length then (b.failed + 1) % UINT_MOD
                                else b.failed } := by
  intro bs
  induction bs with
  | nil => intro i cur k b hb; simp at hb
  | cons p rest ih =>
    intro i cur k b hb
    cases rest with
    | nil =>
      cases k with
      | zero =>
        simp only [List.getElem?_cons_zero, Option.some.injEq] at hb
        subst hb
        simp [ngx_palloc_block_walk]
      | succ k0 => simp at hb
    | cons q rest1 =>
      rw [ngx_palloc_block_walk_two]
      cases k with
      | zero =>
        simp only [List.getElem?_cons_zero, Option.some.injEq] at hb
        subst hb
        simp
      | succ k0 =>
        simp only [List.getElem?_cons_succ] at hb ⊢
        rw [ih (i + 1) _ k0 b hb]
        simp

/-- C18 (amended): a successful block growth increments by one (in
`ngx_uint_t` arithmetic) the `failed` of every block from `current` up to, but
not including, the old tail of the chain, leaves the `failed` of the old tail
and of every block before `current` unchanged, changes no other field of the old
blocks, and links after the old tail the new block, whose `failed` is 0. -/
theorem C18_failed_after_growth (w : ngx_mem_pool) (size mb : Nat) (hmb : mb ≠ 0) :
    (ngx_palloc_block w size mb).2.pool.blocks.length = w.pool.blocks.length + 1 ∧
    (∀ (i : Nat) (b : ngx_pool_data_t), w.pool.blocks[i]? = some b →
      (ngx_palloc_block w size mb).2.pool.blocks[i]? =
        some { b with failed :=
                 if w.pool.current ≤ i ∧ i + 1 < w.pool.blocks.length then
                   (b.failed + 1) % UINT_MOD
                 else b.failed }) ∧
    ∃ n : ngx_pool_data_t,
      (ngx_palloc_block w size mb).2.pool.blocks[w.pool.blocks.length]? = some n ∧
      n.addr = mb ∧ n.failed = 0 := by
  have hblocks : (ngx_palloc_block w size mb).2.pool.blocks =
      w.pool.blocks.take w.pool.current ++
        ((ngx_palloc_block_walk w.pool.current w.pool.current
          (w.pool.blocks.drop w.pool.current)).2 ++
          [{ addr := mb,
             last := ptr_add
               (ngx_align_ptr (ptr_add mb sizeof_ngx_pool_data_t) NGX_ALIGNMENT) size,
             end_ := ptr_add mb size, failed := 0 }]) := by
    simp [ngx_palloc_block, hmb]
  have hlen : (w.pool.blocks.take w.pool.current ++
      (ngx_palloc_block_walk w.pool.current w.pool.current
        (w.pool.blocks.drop w.pool.current)).2).length = w.pool.blocks.length := by
    rw [List.length_append, ngx_palloc_block_walk_length, ← List.length_append,
      List.take_append_drop]
  rw [hblocks, ← List.append_assoc]
  refine ⟨by rw [List.length_append, hlen]; rfl, ?_, ?_⟩
  · intro i b hb
    have hi : i < w.pool.blocks.length := by
      rcases Nat.lt_or_ge i w.pool.blocks.length with hlt | hge
      · exact hlt
      · rw [List.getElem?_eq_none hge] at hb; simp at hb
    rw [List.getElem?_append_left (by rw [hlen]; exact hi)]
    by_cases hc : w.pool.current ≤ i
    · have htl : (w.pool.blocks.take w.pool.current).length = w.pool.current := by
        rw [List.length_take]; omega
      rw [List.getElem?_append_right (by rw [htl]; exact hc), htl]
      have hd : (w.pool.blocks.drop w.pool.current)[i - w.pool.current]? = some b := by
        rw [List.getElem?_drop]
        have : w.pool.current + (i - w.pool.current) = i := by omega
        rw [this]; exact hb
      rw [ngx_palloc_block_walk_getElem _ _ _ _ b hd, List.length_drop]
      have hiff : (i - w.pool.current + 1 < w.pool.blocks.length - w.pool.current) ↔
          (w.pool.current ≤ i ∧ i + 1 < w.pool.blocks.length) := by
        constructor
        · intro h; exact ⟨hc, by omega⟩
        · intro h; omega
      simp only [hiff]
    · have hlt : i < w.pool.current := by omega
      rw [List.getElem?_append_left (by rw [List.length_take]; omega)]
      rw [List.getElem?_take_of_lt hlt, hb]
      have hnot : ¬ (w.pool.current ≤ i ∧ i + 1 < w.pool.blocks.length) := fun h => hc h.1
      simp only [if_neg hnot]
  · refine ⟨{ addr := mb,
               last := ptr_add
                 (ngx_align_ptr (ptr_add mb sizeof_ngx_pool_data_t) NGX_ALIGNMENT) size,
               end_ := ptr_add mb size, failed := 0 }, ?_, rfl, rfl⟩
    rw [← hlen]
    rw [List.getElem?_append_right (Nat.le_refl _)]
    simp

/-- Witness of C18: the growth in the pool of two full blocks whose head has
`failed = 4` raises the head's count to 5, leaves the count of the old tail at 0
and appends a block at 12288 with count 0. -/
theorem C18_failed_after_growth_witness :
    (ngx_palloc_block pool_failed4 100 12288).2.pool.blocks.map (fun b => (b.addr, b.failed)) =
      [(4096, 5), (8192, 0), (12288, 0)] ∧
    (ngx_palloc_block pool_failed4 100 12288).2.pool.blocks.length =
      pool_failed4.pool.blocks.length + 1 :=
  ⟨by decide, (C18_failed_after_growth pool_failed4 100 12288 (by decide)).1⟩

/-! ## New blocks are never at the null address -/

theorem ngx_palloc_small_scan_ne_zero (size align : Nat) (bs : List ngx_pool_data_t)
    (m j : Nat) (bs1 : List ngx_pool_data_t)
    (hcur : ∀ b ∈ bs, 0 < b.last ∧ b.last + NGX_ALIGNMENT ≤ SIZE_MOD)
    (h : ngx_palloc_small_scan size align bs = some (m, j, bs1)) : m ≠ 0 := by
  obtain ⟨b, hb, hm, _, _⟩ := ngx_palloc_small_scan_some size align bs m j bs1 h
  have hmem : b ∈ bs := List.mem_iff_getElem?.mpr ⟨j, hb⟩
  obtain ⟨hpos, hroom⟩ := hcur b hmem
  rw [hm]
  split
  · have := ngx_align_ptr_ge b.last (by simpa [NGX_ALIGNMENT] using hroom)
    omega
  · omega

theorem ngx_palloc_small_null (w : ngx_mem_pool) (size align mb : Nat)
    (hcur : ∀ b ∈ w.pool.blocks, 0 < b.last ∧ b.last + NGX_ALIGNMENT ≤ SIZE_MOD)
    (hmb : mb + sizeof_ngx_pool_data_t + NGX_ALIGNMENT ≤ SIZE_MOD)
    (h : (ngx_palloc_small w size align mb).1 = 0) :
    mb = 0 ∧ ∃ psize, (ngx_palloc_small w size align mb).2 =
      { pool := w.pool, trace := w.trace ++ [Event.malloc psize 0] } := by
  cases hscan : ngx_palloc_small_scan size align (w.pool.blocks.drop w.pool.current) with
  | some t =>
    obtain ⟨m, j, rest⟩ := t
    exfalso
    simp only [ngx_palloc_small, hscan] at h
    exact ngx_palloc_small_scan_ne_zero size align _ m j rest
      (fun b hb => hcur b (List.mem_of_mem_drop hb)) hscan h
  | none =>
    simp only [ngx_palloc_small, hscan] at h ⊢
    by_cases hm0 : mb = 0
    · subst hm0
      refine ⟨rfl, (match w.pool.blocks with
        | [] => 0
        | h :: _ => ptr_diff h.end_ h.addr), ?_⟩
      simp [ngx_palloc_block]
    · exfalso
      simp only [ngx_palloc_block, if_neg hm0] at h
      have hadd : ptr_add mb sizeof_ngx_pool_data_t = mb + sizeof_ngx_pool_data_t := by
        unfold ptr_add
        apply Nat.mod_eq_of_lt
        simp only [NGX_ALIGNMENT, sizeof_ngx_pool_data_t, SIZE_MOD] at hmb ⊢
        omega
      have hge := ngx_align_ptr_ge (ptr_add mb sizeof_ngx_pool_data_t)
        (by rw [hadd]; simpa [NGX_ALIGNMENT] using hmb)
      rw [hadd] at hge h
      omega

theorem ngx_palloc_large_null (w : ngx_mem_pool) (size ml mb : Nat)
    (hcur : ∀ b ∈ w.pool.blocks, 0 < b.last ∧ b.last + NGX_ALIGNMENT ≤ SIZE_MOD)
    (hmb : mb + sizeof_ngx_pool_data_t + NGX_ALIGNMENT ≤ SIZE_MOD)
    (h : (ngx_palloc_large w size ml mb).1 = 0) :
    (ngx_palloc_large w size ml mb).2.pool = w.pool ∧
    ∃ evs, (ngx_palloc_large w size ml mb).2.trace = w.trace ++ evs ∧
      obtained evs = released evs ∧ ∀ e ∈ evs, ∀ f d, e ≠ Event.handler f d := by
  unfold ngx_palloc_large at h ⊢
  by_cases hml : ml = 0
  · subst hml
    simp only [if_true]
    exact ⟨by first | rfl | trivial, [Event.malloc size 0], rfl,
      by simp [obtained, released], by simp⟩
  · simp only [if_neg hml] at h ⊢
    cases hscan : ngx_palloc_large_scan ml 0 w.pool.large with
    | some large1 =>
      simp only [hscan] at h
      exact absurd h hml
    | none =>
      simp only [hscan] at h ⊢
      by_cases hr : (ngx_palloc_small { pool := w.pool, trace := w.trace ++ [Event.malloc size ml] }
          sizeof_ngx_pool_large_s 1 mb).1 = 0
      · obtain ⟨_, psize, hs⟩ := ngx_palloc_small_null
          { pool := w.pool, trace := w.trace ++ [Event.malloc size ml] }
          sizeof_ngx_pool_large_s 1 mb hcur hmb hr
        simp only [if_pos hr, hs]
        refine ⟨by first | rfl | trivial,
          [Event.malloc size ml, Event.malloc psize 0, Event.free ml], ?_, ?_, ?_⟩
        · simp [c_free, hml]
        · simp [obtained, released, hml]
        · simp
      · simp only [if_neg hr] at h
        exact absurd h hml

/-- C20: in every pool state in which no block cursor is null or within one
alignment unit of the top of the address space, and for an allocator that does
not place a block header there either, if `ngx_palloc`, `ngx_pnalloc` or
`ngx_pcalloc` returns null then the pool (blocks with their cursors and
failure counts, `current`, registry, cleanup chain, `max`) is the same as before
the call, the call made no handler call, every region it obtained from the
allocator it has released again, and `ngx_pcalloc` wrote no byte. -/
theorem C20_failed_allocation_is_atomic (w : ngx_mem_pool) (size ml mb : Nat)
    (mem : Nat → Nat)
    (hcur : ∀ b ∈ w.pool.blocks, 0 < b.last ∧ b.last + NGX_ALIGNMENT ≤ SIZE_MOD)
    (hmb : mb + sizeof_ngx_pool_data_t + NGX_ALIGNMENT ≤ SIZE_MOD) :
    ((ngx_palloc w size ml mb).1 = 0 →
      (ngx_palloc w size ml mb).2.pool = w.pool ∧
      ∃ evs, (ngx_palloc w size ml mb).2.trace = w.trace ++ evs ∧
        obtained evs = released evs ∧ ∀ e ∈ evs, ∀ f d, e ≠ Event.handler f d) ∧
    ((ngx_pnalloc w size ml mb).1 = 0 →
      (ngx_pnalloc w size ml mb).2.pool = w.pool ∧
      ∃ evs, (ngx_pnalloc w size ml mb).2.trace = w.trace ++ evs ∧
        obtained evs = released evs ∧ ∀ e ∈ evs, ∀ f d, e ≠ Event.handler f d) ∧
    ((ngx_pcalloc w size ml mb mem).1 = 0 →
      (ngx_pcalloc w size ml mb mem).2.1.pool = w.pool ∧
      (ngx_pcalloc w size ml mb mem).2.2 = mem ∧
      ∃ evs, (ngx_pcalloc w size ml mb mem).2.1.trace = w.trace ++ evs ∧
        obtained evs = released evs ∧ ∀ e ∈ evs, ∀ f d, e ≠ Event.handler f d) := by
  have hsmall : ∀ align, (ngx_palloc_small w size align mb).1 = 0 →
      (ngx_palloc_small w size align mb).2.pool = w.pool ∧
      ∃ evs, (ngx_palloc_small w size align mb).2.trace = w.trace ++ evs ∧
        obtained evs = released evs ∧ ∀ e ∈ evs, ∀ f d, e ≠ Event.handler f d := by
    intro align h
    obtain ⟨_, psize, hs⟩ := ngx_palloc_small_null w size align mb hcur hmb h
    rw [hs]
    exact ⟨rfl, [Event.malloc psize 0], rfl, by simp [obtained, released], by simp⟩
  have hpalloc : (ngx_palloc w size ml mb).1 = 0 →
      (ngx_palloc w size ml mb).2.pool = w.pool ∧
      ∃ evs, (ngx_palloc w size ml mb).2.trace = w.trace ++ evs ∧
        obtained evs = released evs ∧ ∀ e ∈ evs, ∀ f d, e ≠ Event.handler f d := by
    unfold ngx_palloc
    split
    · exact hsmall 1
    · exact ngx_palloc_large_null w size ml mb hcur hmb
  refine ⟨hpalloc, ?_, ?_⟩
  · unfold ngx_pnalloc
    split
    · exact hsmall 0
    · exact ngx_palloc_large_null w size ml mb hcur hmb
  · intro h
    by_cases h0 : (ngx_palloc w size ml mb).1 = 0
    · rw [ngx_pcalloc_eq, if_neg (by simpa using h0)]
      exact ⟨(hpalloc h0).1, rfl, (hpalloc h0).2⟩
    · rw [ngx_pcalloc_eq, if_pos h0] at h
      exact absurd h h0

/-- Witness of C20: on the pool of `create(512)` with 8 bytes left in the head
block, a large request whose region the allocator grants at 20000 fails because
the block for its registry record is refused; the pool is unchanged and the
region 20000 is released again. -/
theorem C20_failed_allocation_is_atomic_witness :
    (ngx_palloc (run pool512 [Op.palloc 440 0 0]) 1000 20000 0).1 = 0 ∧
    (ngx_palloc (run pool512 [Op.palloc 440 0 0]) 1000 20000 0).2.trace =
      [Event.malloc 512 4096, Event.malloc 1000 20000, Event.malloc 512 0, Event.free 20000] ∧
    (ngx_palloc (run pool512 [Op.palloc 440 0 0]) 1000 20000 0).2.pool =
      (run pool512 [Op.palloc 440 0 0]).pool := by
  refine ⟨by decide, by decide, ?_⟩
  apply (C20_failed_allocation_is_atomic (run pool512 [Op.palloc 440 0 0]) 1000 20000 0
    (fun _ => 0) ?_ (by decide)).1 (by decide) |>.1
  intro b hb
  have hblocks : (run pool512 [Op.palloc 440 0 0]).pool.blocks =
      [{ addr := 4096, last := 4600, end_ := 4608, failed := 0 }] := by decide
  rw [hblocks, List.mem_singleton] at hb
  subst hb
  decide

/-! ## Growth happens at most once between two resets -/

theorem overrun_mono {T : ngx_pool_data_t} {t t1 : Nat} (h : overrun T t) (ht : t ≤ t1) :
    overrun T t1 :=
  ⟨h.1, Nat.le_trans h.2 ht⟩

theorem overrun_fits (T : ngx_pool_data_t) (t size align : Nat) (h : overrun T t)
    (hroom : size + t + 8 ≤ SIZE_MOD) :
    size ≤ ptr_diff T.end_
      (if align ≠ 0 then ngx_align_ptr T.last NGX_ALIGNMENT else T.last) := by
  obtain ⟨h1, h2⟩ := h
  split
  · rw [ngx_align_ptr_eq]
    simp only [ptr_diff, SIZE_MOD] at *
    omega
  · simp only [ptr_diff, SIZE_MOD] at *
    omega

theorem overrun_advance (T : ngx_pool_data_t) (t size align m : Nat) (h : overrun T t)
    (hroom : size + t + 8 ≤ SIZE_MOD)
    (hm : m = if align ≠ 0 then ngx_align_ptr T.last NGX_ALIGNMENT else T.last) :
    overrun { T with last := ptr_add m size } (t + size + 7) := by
  obtain ⟨h1, h2⟩ := h
  unfold overrun
  simp only []
  split at hm
  · rw [ngx_align_ptr_eq] at hm
    simp only [ptr_diff, ptr_add, SIZE_MOD] at *
    omega
  · simp only [ptr_diff, ptr_add, SIZE_MOD] at *
    omega

theorem overrun_new_block (mb size : Nat) :
    overrun { addr := mb, last := ptr_add (ngx_align_ptr (ptr_add mb sizeof_ngx_pool_data_t) NGX_ALIGNMENT) size, end_ := ptr_add mb size, failed := 0 } 39 := by
  unfold overrun
  simp only []
  rw [ngx_align_ptr_eq]
  simp only [ptr_diff, ptr_add, SIZE_MOD, sizeof_ngx_pool_data_t]
  omega

theorem ngx_palloc_small_scan_failed (size align : Nat) :
    ∀ (bs : List ngx_pool_data_t) (m j : Nat) (bs1 : List ngx_pool_data_t),
      ngx_palloc_small_scan size align bs = some (m, j, bs1) →
      bs1.map (fun b => b.failed) = bs.map (fun b => b.failed) := by
  intro bs
  induction bs with
  | nil => intro m j bs1 h; simp [ngx_palloc_small_scan] at h
  | cons b rest ih =>
    intro m j bs1 h
    rw [ngx_palloc_small_scan_cons] at h
    by_cases hfit : size ≤ ptr_diff b.end_
        (if align ≠ 0 then ngx_align_ptr b.last NGX_ALIGNMENT else b.last)
    · rw [if_pos hfit] at h
      simp only [Option.some.injEq, Prod.mk.injEq] at h
      obtain ⟨_, _, h3⟩ := h
      subst h3
      simp
    · rw [if_neg hfit] at h
      cases hrec : ngx_palloc_small_scan size align rest with
      | none => rw [hrec] at h; simp at h
      | some t =>
        obtain ⟨r, i, rest1⟩ := t
        rw [hrec] at h
        simp only [Option.some.injEq, Prod.mk.injEq] at h
        obtain ⟨_, _, h3⟩ := h
        subst h3
        simp [ih r i rest1 hrec]

theorem failed_of_map_eq {bs bs1 : List ngx_pool_data_t} {k : Nat}
    (h : bs1.map (fun b => b.failed) = bs.map (fun b => b.failed))
    (hk : ∀ b ∈ bs, b.failed ≤ k) : ∀ b ∈ bs1, b.failed ≤ k := by
  intro b hb
  have hmem : b.failed ∈ bs1.map (fun b => b.failed) := List.mem_map.mpr ⟨b, hb, rfl⟩
  rw [h] at hmem
  obtain ⟨b0, hb0, e⟩ := List.mem_map.mp hmem
  rw [← e]
  exact hk b0 hb0

theorem ngx_palloc_small_scan_overrun (size align t : Nat) (T : ngx_pool_data_t)
    (hT : overrun T t) (hroom : size + t + 8 ≤ SIZE_MOD) :
    ∀ front : List ngx_pool_data_t,
      ∃ m j front1 T1,
        ngx_palloc_small_scan size align (front ++ [T]) = some (m, j, front1 ++ [T1]) ∧
        overrun T1 (t + size + 7) := by
  intro front
  induction front with
  | nil =>
    have hfit := overrun_fits T t size align hT hroom
    generalize hm : (if align ≠ 0 then ngx_align_ptr T.last NGX_ALIGNMENT else T.last) = m at hfit
    refine ⟨m, 0, [], { T with last := ptr_add m size }, ?_, ?_⟩
    · simp only [List.nil_append, ngx_palloc_small_scan_cons, hm, if_pos hfit]
    · exact overrun_advance T t size align m hT hroom hm.symm
  | cons b front ih =>
    by_cases hfit : size ≤ ptr_diff b.end_
        (if align ≠ 0 then ngx_align_ptr b.last NGX_ALIGNMENT else b.last)
    · generalize hm : (if align ≠ 0 then ngx_align_ptr b.last NGX_ALIGNMENT else b.last) = m at hfit
      refine ⟨m, 0, { b with last := ptr_add m size } :: front, T, ?_, overrun_mono hT (by omega)⟩
      simp only [List.cons_append, ngx_palloc_small_scan_cons, hm, if_pos hfit]
    · obtain ⟨m, j, front1, T1, hscan, hT1⟩ := ih
      refine ⟨m, j + 1, b :: front1, T1, ?_, hT1⟩
      simp only [List.cons_append, ngx_palloc_small_scan_cons, if_neg hfit, hscan]

theorem ngx_palloc_block_walk_failed :
    ∀ (bs : List ngx_pool_data_t) (i cur : Nat),
      (∀ b ∈ bs, b.failed = 0) →
      ∀ b ∈ (ngx_palloc_block_walk i cur bs).2, b.failed ≤ 1 := by
  intro bs
  induction bs with
  | nil => intro i cur _ b hb; simp [ngx_palloc_block_walk] at hb
  | cons p rest ih =>
    intro i cur h0 b hb
    cases rest with
    | nil =>
      simp only [ngx_palloc_block_walk, List.mem_singleton] at hb
      rw [hb, h0 p (List.mem_cons_self _ _)]
      omega
    | cons q rest1 =>
      rw [ngx_palloc_block_walk_two] at hb
      simp only [List.mem_cons] at hb
      rcases hb with hb | hb
      · rw [hb]
        simp only [h0 p (List.mem_cons_self _ _), UINT_MOD]
        omega
      · exact ih (i + 1) _ (fun b1 hb1 => h0 b1 (List.mem_cons_of_mem _ hb1)) b
          (by simpa using hb)

theorem Calm_congr {w w1 : ngx_mem_pool} {t : Nat} (hb : w1.pool.blocks = w.pool.blocks)
    (hc : w1.pool.current = w.pool.current) (hm : w1.pool.max = w.pool.max) (h : Calm w t) :
    Calm w1 t := by
  unfold Calm at *
  rw [hb, hc, hm]
  exact h

theorem Calm_mono {w : ngx_mem_pool} {t t1 : Nat} (h : Calm w t) (ht : t ≤ t1) : Calm w t1 := by
  obtain ⟨hc, hm, hAB⟩ := h
  refine ⟨hc, hm, ?_⟩
  rcases hAB with hA | ⟨hB, front, T, hbs, hT⟩
  · exact Or.inl hA
  · exact Or.inr ⟨hB, front, T, hbs, overrun_mono hT ht⟩

theorem ngx_palloc_small_calm (w : ngx_mem_pool) (size align mb t : Nat) (h : Calm w t)
    (hsize : size ≤ 4095) (hroom : t + 4110 ≤ SIZE_MOD) :
    Calm (ngx_palloc_small w size align mb).2 (t + 4102) := by
  obtain ⟨hc, hm, hAB⟩ := h
  cases hscan : ngx_palloc_small_scan size align w.pool.blocks with
  | some r =>
    obtain ⟨m, j, rest⟩ := r
    have e : (ngx_palloc_small w size align mb).2 =
        { w with pool := { w.pool with blocks := rest } } := by
      simp only [ngx_palloc_small, hc, List.drop_zero, List.take_zero, List.nil_append, hscan]
    rw [e]
    have hf := ngx_palloc_small_scan_failed size align _ m j rest hscan
    refine ⟨hc, hm, ?_⟩
    rcases hAB with hA | ⟨hB, front, T, hbs, hT⟩
    · left
      intro b hb
      have := failed_of_map_eq hf (fun b0 hb0 => Nat.le_of_eq (hA b0 hb0)) b hb
      omega
    · right
      refine ⟨failed_of_map_eq hf hB, ?_⟩
      obtain ⟨m1, j1, front1, T1, hs, hT1⟩ :=
        ngx_palloc_small_scan_overrun size align t T hT (by omega) front
      rw [hbs, hs] at hscan
      simp only [Option.some.injEq, Prod.mk.injEq] at hscan
      exact ⟨front1, T1, hscan.2.2.symm, overrun_mono hT1 (by omega)⟩
  | none =>
    have e : (ngx_palloc_small w size align mb).2 = (ngx_palloc_block w size mb).2 := by
      simp only [ngx_palloc_small, hc, List.drop_zero, List.take_zero, List.nil_append, hscan]
    rw [e]
    rcases hAB with hA | ⟨hB, front, T, hbs, hT⟩
    · by_cases hmb : mb = 0
      · exact Calm_congr (by simp [ngx_palloc_block, hmb]) (by simp [ngx_palloc_block, hmb])
          (by simp [ngx_palloc_block, hmb]) ⟨hc, hm, Or.inl hA⟩
      · have hcur : (ngx_palloc_block_walk 0 0 w.pool.blocks).1 = 0 := by
          apply ngx_palloc_block_walk_current_same
          intro k b _ hb
          have := hA b (List.mem_iff_getElem?.mpr ⟨k, hb⟩)
          omega
        refine ⟨by simp [ngx_palloc_block, hmb, hc, hcur], by simpa [ngx_palloc_block, hmb] using hm,
          Or.inr ⟨?_, ?_⟩⟩
        · intro b hb
          simp only [ngx_palloc_block, hmb, if_false, hc, List.drop_zero, List.take_zero,
            List.nil_append, List.mem_append, List.mem_singleton] at hb
          rcases hb with hb | hb
          · exact ngx_palloc_block_walk_failed w.pool.blocks 0 0 hA b hb
          · rw [hb]; simp
        · refine ⟨(ngx_palloc_block_walk 0 0 w.pool.blocks).2, _, ?_,
            overrun_mono (overrun_new_block mb size) (by omega)⟩
          simp [ngx_palloc_block, hmb, hc]
    · exfalso
      obtain ⟨m1, j1, front1, T1, hs, _⟩ :=
        ngx_palloc_small_scan_overrun size align t T hT (by omega) front
      rw [hbs, hs] at hscan
      simp at hscan

theorem ngx_palloc_large_calm (w : ngx_mem_pool) (size ml mb t : Nat) (h : Calm w t)
    (hroom : t + 4110 ≤ SIZE_MOD) :
    Calm (ngx_palloc_large w size ml mb).2 (t + 4102) := by
  have h1 : Calm { w with trace := w.trace ++ [Event.malloc size ml] } t :=
    Calm_congr rfl rfl rfl h
  have hs := ngx_palloc_small_calm { w with trace := w.trace ++ [Event.malloc size ml] }
    sizeof_ngx_pool_large_s 1 mb t h1 (by decide) hroom
  unfold ngx_palloc_large
  simp only []
  split
  · exact Calm_mono h1 (by omega)
  · split
    · exact Calm_mono (Calm_congr rfl rfl rfl h1) (by omega)
    · split
      · exact Calm_congr rfl rfl rfl hs
      · exact Calm_congr rfl rfl rfl hs

theorem ngx_palloc_calm (w : ngx_mem_pool) (size ml mb t : Nat) (h : Calm w t)
    (hroom : t + 4110 ≤ SIZE_MOD) :
    Calm (ngx_palloc w size ml mb).2 (t + 4102) := by
  unfold ngx_palloc
  split
  · rename_i hlt
    have hm := h.2.1
    simp only [NGX_MAX_ALLOC_FROM_POOL, ngx_pagesize] at hm
    exact ngx_palloc_small_calm w size 1 mb t h (by omega) hroom
  · exact ngx_palloc_large_calm w size ml mb t h hroom

theorem ngx_pnalloc_calm (w : ngx_mem_pool) (size ml mb t : Nat) (h : Calm w t)
    (hroom : t + 4110 ≤ SIZE_MOD) :
    Calm (ngx_pnalloc w size ml mb).2 (t + 4102) := by
  unfold ngx_pnalloc
  split
  · rename_i hlt
    have hm := h.2.1
    simp only [NGX_MAX_ALLOC_FROM_POOL, ngx_pagesize] at hm
    exact ngx_palloc_small_calm w size 0 mb t h (by omega) hroom
  · exact ngx_palloc_large_calm w size ml mb t h hroom

theorem ngx_pcalloc_calm (w : ngx_mem_pool) (size ml mb t : Nat) (mem : Nat → Nat)
    (h : Calm w t) (hroom : t + 4110 ≤ SIZE_MOD) :
    Calm (ngx_pcalloc w size ml mb mem).2.1 (t + 4102) := by
  have hp := ngx_palloc_calm w size ml mb t h hroom
  unfold ngx_pcalloc
  simp only []
  split
  · exact Calm_congr rfl rfl rfl hp
  · exact hp

theorem ngx_pfree_calm (w : ngx_mem_pool) (p t : Nat) (h : Calm w t) :
    Calm (ngx_pfree w p) t := by
  unfold ngx_pfree
  split
  · exact h
  · exact Calm_congr rfl rfl rfl h

theorem ngx_reset_pool_calm (w : ngx_mem_pool) (t : Nat) (h : Calm w t) :
    Calm (ngx_reset_pool w) t := by
  refine ⟨rfl, h.2.1, Or.inl ?_⟩
  intro b hb
  simp only [ngx_reset_pool] at hb
  cases hbs : w.pool.blocks with
  | nil => rw [hbs] at hb; simp at hb
  | cons p rest =>
    rw [hbs] at hb
    simp only [List.mem_cons, List.mem_map] at hb
    rcases hb with hb | ⟨q, _, hb⟩
    · rw [hb]
    · rw [← hb]

theorem ngx_pool_cleanup_add_calm (w : ngx_mem_pool) (size ml1 mb1 ml2 mb2 t : Nat)
    (h : Calm w t) (hroom : t + 8212 ≤ SIZE_MOD) :
    Calm (ngx_pool_cleanup_add w size ml1 mb1 ml2 mb2).2 (t + 8204) := by
  have hc := ngx_palloc_calm w sizeof_ngx_pool_cleanup_s ml1 mb1 t h (by omega)
  have hd := ngx_palloc_calm (ngx_palloc w sizeof_ngx_pool_cleanup_s ml1 mb1).2 size ml2 mb2
    (t + 4102) hc (by omega)
  unfold ngx_pool_cleanup_add
  simp only []
  split
  · exact Calm_mono hc (by omega)
  · split
    · split
      · exact hd
      · exact Calm_congr rfl rfl rfl hd
    · exact Calm_mono (Calm_congr rfl rfl rfl hc) (by omega)

theorem step_calm (w : ngx_mem_pool) (o : Op) (t : Nat) (h : Calm w t)
    (hroom : t + 8212 ≤ SIZE_MOD) : Calm (step w o) (t + 8204) := by
  cases o with
  | palloc size ml mb => exact Calm_mono (ngx_palloc_calm w size ml mb t h (by omega)) (by omega)
  | pnalloc size ml mb => exact Calm_mono (ngx_pnalloc_calm w size ml mb t h (by omega)) (by omega)
  | pcalloc size ml mb =>
    exact Calm_mono (ngx_pcalloc_calm w size ml mb t _ h (by omega)) (by omega)
  | pfree p => exact Calm_mono (ngx_pfree_calm w p t h) (by omega)
  | reset => exact Calm_mono (ngx_reset_pool_calm w t h) (by omega)
  | cleanup_add size ml1 mb1 ml2 mb2 =>
    exact ngx_pool_cleanup_add_calm w size ml1 mb1 ml2 mb2 t h hroom
  | set_handler c hd => exact Calm_mono (Calm_congr rfl rfl rfl h) (by omega)
  | set_data c d => exact Calm_mono (Calm_congr rfl rfl rfl h) (by omega)

theorem run_calm (ops : List Op) :
    ∀ (w : ngx_mem_pool) (t : Nat), Calm w t → t + 8204 * ops.length + 8 ≤ SIZE_MOD →
      Calm (run w ops) (t + 8204 * ops.length) := by
  induction ops with
  | nil => intro w t h _; exact h
  | cons o os ih =>
    intro w t h hroom
    simp only [List.length_cons] at hroom ⊢
    have := ih (step w o) (t + 8204) (step_calm w o t h (by omega)) (by omega)
    exact Calm_mono this (by omega)

theorem ngx_create_pool_calm (S m : Nat) (w0 : ngx_mem_pool)
    (h : ngx_create_pool S m = some w0) : Calm w0 0 := by
  unfold ngx_create_pool at h
  split at h
  · simp at h
  · simp only [Option.some.injEq] at h
    subst h
    refine ⟨rfl, ?_, Or.inl ?_⟩
    · simp only []
      split
      · omega
      · exact Nat.le_refl _
    · intro b hb
      simp only [List.mem_singleton] at hb
      rw [hb]

/-- In every state that a successful `ngx_create_pool` and at most 2^50 public
operations lead to, `current` is the head block, no block has failed more than
once, and a block growth leaves `current` at the head: a grown block accepts
every later small request until its cursor has gone round the address space, so
the chain grows at most once between two resets. -/
theorem run_short_current_at_head (S m : Nat) (w0 : ngx_mem_pool) (ops : List Op)
    (h0 : ngx_create_pool S m = some w0) (hlen : ops.length ≤ 1125899906842624) :
    (run w0 ops).pool.current = 0 ∧
    (∀ b ∈ (run w0 ops).pool.blocks, b.failed ≤ 1) ∧
    ∀ size mb : Nat, (ngx_palloc_block (run w0 ops) size mb).2.pool.current = 0 := by
  have hcalm := run_calm ops w0 0 (ngx_create_pool_calm S m w0 h0)
    (by simp only [SIZE_MOD]; omega)
  obtain ⟨hc, _, hAB⟩ := hcalm
  have hf : ∀ b ∈ (run w0 ops).pool.blocks, b.failed ≤ 1 := by
    rcases hAB with hA | ⟨hB, _⟩
    · intro b hb
      have := hA b hb
      omega
    · exact hB
  refine ⟨hc, hf, ?_⟩
  intro size mb
  by_cases hmb : mb = 0
  · simp [ngx_palloc_block, hmb, hc]
  · rw [(ngx_palloc_block_current (run w0 ops) size mb hmb).1, hc]
    intro j b _ _ hb
    have := hf b (List.mem_iff_getElem?.mpr ⟨j, hb⟩)
    omega

end NgxMemPool
